import Mathlib

/-!
# ArgoStack load-testing scripts

A shallow embedding of the four k6 scenario scripts under `load-testing/k6/`
(`baseline-test.js`, `soak-test.js`, `spike-test.js`, `stress-test.js`).

The k6 runtime is not part of the repository.  Its calls are modelled by what they
leave behind: one iteration of a script's `default` function is a function from the
responses the runtime hands back to the list of `Event`s the iteration performs, in
program order.  An exception raised inside the function ends the iteration at that point.
The custom metric `errors` is the list of values passed to `errorRate.add`, read off that
list.
-/

namespace ArgoStack

/-! ## Responses -/

/-- A JSON document, as returned by `r.json()`. -/
inductive JsonValue where
  | null
  | bool (b : Bool)
  | num (n : Int)
  | str (s : String)
  | arr (xs : List JsonValue)
  | obj (kvs : List (String × JsonValue))

/-- An HTTP response as seen by a check: the numeric `status` and the body as a JSON
document.  The body is `none` when the response has no body at all: a request that was
refused or timed out comes back with `status = 0` and a null body.  A body that is not valid
JSON answers a selector with `undefined`, as `some JsonValue.null` does. -/
structure Response where
  status : Int
  body : Option JsonValue

/-- The call `r.json(sel)` for a one-segment selector.  On a response without a body the call
raises, which is the outer `none`.  Otherwise it returns the member `sel` of a top-level
object, the inner `none` standing for JavaScript's `undefined`. -/
def Response.json (r : Response) (sel : String) : Option (Option JsonValue) :=
  match r.body with
  | none => none
  | some (JsonValue.obj kvs) => some (kvs.lookup sel)
  | some _ => some none

/-- The test `v === s` for a string literal `s`. -/
def strictEqStr (v : Option JsonValue) (s : String) : Bool :=
  match v with
  | some (JsonValue.str x) => x == s
  | _ => false

/-- The test `Array.isArray(v)`. -/
def isArray (v : Option JsonValue) : Bool :=
  match v with
  | some (JsonValue.arr _) => true
  | _ => false

/-! ## Events of an iteration -/

/-- What a script does to the outside world, one constructor per k6 call used by the scripts. -/
inductive Event where
  | httpGet (url : String)
  | httpBatch (reqs : List (String × String))
  | check (results : List (String × Bool))
  | errorRateAdd (v : ℚ)
  | sleep (seconds : ℚ)
  deriving DecidableEq

/-- A named predicate of a check set, `'name': (r) => ...`; its result is `none` when
evaluating it raises. -/
abbrev Predicate := String × (Response → Option Bool)

/-- The predicates of one `check` call, evaluated in order.  Each outcome is recorded under
the predicate's name.  A predicate that raises is recorded as failed and stops the call: the
flag returned tells whether that happened. -/
def evalChecks (res : Response) : List Predicate → List (String × Bool) × Bool
  | [] => ([], false)
  | p :: ps =>
    match p.2 res with
    | some b => ((p.1, b) :: (evalChecks res ps).1, (evalChecks res ps).2)
    | none => ([(p.1, false)], true)

/-- The call `check(res, sets)`: the recorded outcomes, and the value returned, `true` when
every predicate held; `none` when a predicate raised, in which case `check` raises in turn. -/
def check (res : Response) (sets : List Predicate) : List Event × Option Bool :=
  ( [Event.check (evalChecks res sets).1],
    if (evalChecks res sets).2 then none
    else some ((evalChecks res sets).1.all (fun p => p.2)) )

/-- The statement `check(res, sets) || errorRate.add(1);` followed by the rest of the function
body, `rest`.  The right operand of `||` runs only when the check returned false.  When the
check raises, nothing after it runs: the iteration ends. -/
def checkOrAdd (res : Response) (sets : List Predicate) (rest : List Event) : List Event :=
  match (check res sets).2 with
  | some true => (check res sets).1 ++ rest
  | some false => (check res sets).1 ++ Event.errorRateAdd 1 :: rest
  | none => (check res sets).1

/-- No predicate of the set raises on the response. -/
def NeverRaises (res : Response) (sets : List Predicate) : Prop :=
  ∀ p ∈ sets, (p.2 res).isSome = true

/-! ## Environment -/

/-- The k6 object `__ENV`: a variable is absent (`undefined`) or holds a string. -/
abbrev Env := String → Option String

/-- The expression `v || d` for a possibly-undefined string `v`: `undefined` and the empty
string are falsy, every other string is truthy. -/
def orDefault (v : Option String) (d : String) : String :=
  match v with
  | some s => if s = "" then d else s
  | none => d

/-! ## Numbers -/

/-- A finite, non-negative IEEE 754 double: the number `mantissa * 2 ^ exponent`. -/
structure Double where
  mantissa : Nat
  exponent : Int
  deriving DecidableEq, Repr

/-- The ranges of the two fields of a double: 53 bits of mantissa, exponents from the smallest
subnormal up. -/
def Double.valid (d : Double) : Prop :=
  d.mantissa < 2 ^ 53 ∧ -1074 ≤ d.exponent ∧ d.exponent ≤ 971

instance (d : Double) : Decidable d.valid := by
  unfold Double.valid
  infer_instance

/-- The number a double stands for. -/
def Double.toRat (d : Double) : ℚ := (d.mantissa : ℚ) * (2 : ℚ) ^ d.exponent

/-- The nearest whole number, a half going to the even neighbour. -/
def roundHalfEven (q : ℚ) : Int :=
  if q - (⌊q⌋ : ℚ) < 1 / 2 then ⌊q⌋
  else if 1 / 2 < q - (⌊q⌋ : ℚ) then ⌊q⌋ + 1
  else if ⌊q⌋ % 2 = 0 then ⌊q⌋ else ⌊q⌋ + 1

/-- The spacing of the doubles around a non-negative `x`: `2 ^ (e - 52)` where
`2 ^ e ≤ x < 2 ^ (e + 1)`, and the subnormal spacing below `2 ^ -1022`. -/
def ulpAt (x : ℚ) : ℚ := (2 : ℚ) ^ (max (Int.log 2 x) (-1022) - 52)

/-- The result of a double operation whose exact result is the non-negative `x` (below the
overflow threshold): the double nearest to `x`, ties to even. -/
def roundToDouble (x : ℚ) : ℚ :=
  (roundHalfEven (x / ulpAt x) : ℚ) * ulpAt x

/-! ## Stage lists and thresholds (`options`) -/

/-- One entry of `options.stages`. -/
structure Stage where
  duration : String
  target : Nat
  deriving DecidableEq, Repr

/-- The aggregate a threshold expression reads: `p(n)` or `rate`. -/
inductive Aggregate where
  | p (n : Nat)
  | rate
  deriving DecidableEq, Repr

/-- A threshold expression `agg<bound` on a named metric, e.g. `p(95)<500`. -/
structure Threshold where
  metric : String
  agg : Aggregate
  bound : ℚ
  deriving DecidableEq

/-! ## baseline-test.js -/

namespace baseline

def options_stages : List Stage :=
  [ ⟨"1m", 10⟩,
    ⟨"3m", 10⟩,
    ⟨"1m", 0⟩ ]

def options_thresholds : List Threshold :=
  [ ⟨"http_req_duration", Aggregate.p 95, 500⟩,
    ⟨"http_req_failed", Aggregate.rate, 5 / 100⟩,
    ⟨"errors", Aggregate.rate, 5 / 100⟩ ]

def BASE_URL (env : Env) : String :=
  orDefault (env "BASE_URL") "http://sample-app.dev.svc.cluster.local"

def rootChecks : List Predicate :=
  [ ("status is 200", fun r => some (r.status == 200)),
    ("response has service", fun r => (r.json "service").map (fun v => v.isSome)) ]

def healthChecks : List Predicate :=
  [ ("health check is 200", fun r => some (r.status == 200)),
    ("health status is healthy", fun r => (r.json "status").map (fun v => strictEqStr v "healthy")) ]

def apiChecks : List Predicate :=
  [ ("api status is 200", fun r => some (r.status == 200)),
    ("api has users array", fun r => (r.json "users").map (fun v => isArray v)) ]

/-- One iteration of `export default function ()`, given the responses to its three requests. -/
def default (env : Env) (r1 r2 r3 : Response) : List Event :=
  Event.httpGet (BASE_URL env ++ "/") ::
    checkOrAdd r1 rootChecks
      (Event.sleep 1 ::
        Event.httpGet (BASE_URL env ++ "/health") ::
          checkOrAdd r2 healthChecks
            (Event.sleep 1 ::
              Event.httpGet (BASE_URL env ++ "/api/users") ::
                checkOrAdd r3 apiChecks
                  [Event.sleep 1]))

end baseline

/-! ## soak-test.js -/

namespace soak

def options_stages : List Stage :=
  [ ⟨"2m", 30⟩,
    ⟨"30m", 30⟩,
    ⟨"2m", 0⟩ ]

def options_thresholds : List Threshold :=
  [ ⟨"http_req_duration", Aggregate.p 95, 600⟩,
    ⟨"http_req_failed", Aggregate.rate, 5 / 100⟩,
    ⟨"errors", Aggregate.rate, 5 / 100⟩ ]

def BASE_URL (env : Env) : String :=
  orDefault (env "BASE_URL") "http://sample-app.dev.svc.cluster.local"

/-- One iteration of `export default function ()`, given the responses to its three requests. -/
def default (env : Env) (r1 r2 r3 : Response) : List Event :=
  Event.httpGet (BASE_URL env ++ "/") ::
    checkOrAdd r1 [("home status is 200", fun r => some (r.status == 200))]
      (Event.sleep 2 ::
        Event.httpGet (BASE_URL env ++ "/api/users") ::
          checkOrAdd r2 [("api status is 200", fun r => some (r.status == 200))]
            (Event.sleep 3 ::
              Event.httpGet (BASE_URL env ++ "/health") ::
                checkOrAdd r3 [("health status is 200", fun r => some (r.status == 200))]
                  [Event.sleep 2]))

end soak

/-! ## spike-test.js -/

namespace spike

def options_stages : List Stage :=
  [ ⟨"30s", 10⟩,
    ⟨"1m", 200⟩,
    ⟨"3m", 200⟩,
    ⟨"30s", 10⟩,
    ⟨"1m", 10⟩,
    ⟨"30s", 0⟩ ]

def options_thresholds : List Threshold :=
  [ ⟨"http_req_duration", Aggregate.p 95, 2000⟩,
    ⟨"http_req_failed", Aggregate.rate, 15 / 100⟩,
    ⟨"errors", Aggregate.rate, 15 / 100⟩ ]

def BASE_URL (env : Env) : String :=
  orDefault (env "BASE_URL") "http://sample-app.dev.svc.cluster.local"

def endpoints (env : Env) : List String :=
  [ BASE_URL env ++ "/",
    BASE_URL env ++ "/health",
    BASE_URL env ++ "/api/users" ]

/-- The index `Math.floor(Math.random() * endpoints.length)`, with `random` the double drawn:
the product is a double multiplication, rounded to the nearest double before the floor. -/
def index (env : Env) (random : Double) : Int :=
  ⌊roundToDouble (random.toRat * ((endpoints env).length : ℚ))⌋

/-- The value `endpoints[index]`; `none` stands for `undefined` (index outside the array). -/
def endpoint (env : Env) (random : Double) : Option String :=
  if 0 ≤ index env random then (endpoints env)[(index env random).toNat]? else none

/-- One iteration of `export default function ()`, given the random draw and the response.
With an `undefined` endpoint `http.get` raises and the iteration ends there. -/
def default (env : Env) (random : Double) (res : Response) : List Event :=
  match endpoint env random with
  | none => []
  | some url =>
    Event.httpGet url ::
      checkOrAdd res
        [("status is 2xx", fun r => some (decide (r.status ≥ 200) && decide (r.status < 300)))]
        [Event.sleep (3 / 10)]

end spike

/-! ## stress-test.js -/

namespace stress

def options_stages : List Stage :=
  [ ⟨"2m", 50⟩,
    ⟨"5m", 50⟩,
    ⟨"2m", 100⟩,
    ⟨"5m", 100⟩,
    ⟨"2m", 150⟩,
    ⟨"5m", 150⟩,
    ⟨"2m", 0⟩ ]

def options_thresholds : List Threshold :=
  [ ⟨"http_req_duration", Aggregate.p 95, 1000⟩,
    ⟨"http_req_failed", Aggregate.rate, 10 / 100⟩,
    ⟨"errors", Aggregate.rate, 10 / 100⟩ ]

def BASE_URL (env : Env) : String :=
  orDefault (env "BASE_URL") "http://sample-app.dev.svc.cluster.local"

/-- The check set applied to every response of the batch. -/
def batchChecks : List Predicate :=
  [("status is 2xx", fun r => some (decide (r.status ≥ 200) && decide (r.status < 300)))]

/-- One iteration of `export default function ()`, given the array `http.batch` returned:
`forEach` visits every element in order, then the function sleeps. -/
def default (env : Env) (responses : List Response) : List Event :=
  Event.httpBatch
      [ ("GET", BASE_URL env ++ "/"),
        ("GET", BASE_URL env ++ "/health"),
        ("GET", BASE_URL env ++ "/ready"),
        ("GET", BASE_URL env ++ "/api/users") ] ::
    responses.foldr (fun res rest => checkOrAdd res batchChecks rest)
      [Event.sleep (1 / 2)]

end stress

/-! ## Reading an event list -/

/-- The samples of the custom metric `errors`: the arguments of `errorRate.add`, in order. -/
def errorsSamples (tr : List Event) : List ℚ :=
  tr.filterMap (fun e => match e with
    | Event.errorRateAdd v => some v
    | _ => none)

/-- The outcome of every `check` call, in order: `true` when all its predicates held. -/
def checkCalls (tr : List Event) : List Bool :=
  tr.filterMap (fun e => match e with
    | Event.check results => some (results.all (fun p => p.2))
    | _ => none)

/-- The number of `check` calls that failed (at least one predicate false). -/
def failedChecks (tr : List Event) : Nat :=
  (checkCalls tr).count false

/-- The requests and think times of an event list, in order. -/
def steps (tr : List Event) : List Event :=
  tr.filter (fun e => match e with
    | Event.httpGet _ => true
    | Event.httpBatch _ => true
    | Event.sleep _ => true
    | _ => false)

/-- The URLs requested, in order. -/
def requestedUrls (tr : List Event) : List String :=
  tr.flatMap (fun e => match e with
    | Event.httpGet url => [url]
    | Event.httpBatch reqs => reqs.map (fun q => q.2)
    | _ => [])

/-- The total think time, in seconds. -/
def thinkTime (tr : List Event) : ℚ :=
  (tr.filterMap (fun e => match e with
    | Event.sleep d => some d
    | _ => none)).sum

/-- The `rate` of a k6 `Rate` metric: the fraction of its samples that are non-zero;
`none` when the metric has no sample. -/
def rate (samples : List ℚ) : Option ℚ :=
  if samples = [] then none
  else some (((samples.filter (fun v => v ≠ 0)).length : ℚ) / (samples.length : ℚ))

/-- The fraction of `check` calls that failed; `none` when there was no call. -/
def failedFraction (tr : List Event) : Option ℚ :=
  if checkCalls tr = [] then none
  else some ((failedChecks tr : ℚ) / ((checkCalls tr).length : ℚ))

/-- A threshold `rate<bound`, evaluated on the samples of its metric: a metric without
samples does not pass. -/
def rateBelow (bound : ℚ) (samples : List ℚ) : Bool :=
  match rate samples with
  | some v => decide (v < bound)
  | none => false

/-! ## Runs -/

/-- A run of the baseline script: the iterations performed, each with its three responses. -/
def baseline.run (env : Env) (iters : List (Response × Response × Response)) : List Event :=
  iters.flatMap (fun i => baseline.default env i.1 i.2.1 i.2.2)

/-- A run of the soak script. -/
def soak.run (env : Env) (iters : List (Response × Response × Response)) : List Event :=
  iters.flatMap (fun i => soak.default env i.1 i.2.1 i.2.2)

/-- A run of the spike script: each iteration has its random draw and its response. -/
def spike.run (env : Env) (iters : List (Double × Response)) : List Event :=
  iters.flatMap (fun i => spike.default env i.1 i.2)

/-- A run of the stress script: each iteration has the responses of its batch. -/
def stress.run (env : Env) (iters : List (List Response)) : List Event :=
  iters.flatMap (fun rs => stress.default env rs)

/-! ## Stage scheduler -/

/-- Modelled from the spec: how the runtime reads a stage's `duration` string, which is not in
the scripts: a decimal count followed by one unit, `s`, `m` or `h`, read in seconds
(`30s` is 30, `1m` is 60).  Anything else is a configuration error. -/
def parseDuration (s : String) : Option Nat :=
  match s.toList.reverse with
  | [] => none
  | unit :: revDigits =>
    if revDigits.isEmpty || !(revDigits.all Char.isDigit) then none
    else
      let n := revDigits.reverse.foldl (fun acc c => 10 * acc + (c.toNat - 48)) 0
      if unit = 's' then some n
      else if unit = 'm' then some (60 * n)
      else if unit = 'h' then some (3600 * n)
      else none

/-- A stage with its duration in seconds. -/
structure TimedStage where
  seconds : Nat
  target : Nat
  deriving DecidableEq, Repr

/-- Modelled from the spec: reading a whole stage list; a malformed entry is a configuration
error and the run never begins. -/
def parseStages (stages : List Stage) : Option (List TimedStage) :=
  stages.mapM (fun s => (parseDuration s.duration).map (fun d => ⟨d, s.target⟩))

/-- Modelled from the spec: "rounded to nearest integer ≥ 0" (halves go up). -/
def roundNearest (x : ℚ) : Int :=
  max 0 ⌊x + 1 / 2⌋

/-- Modelled from the spec: the StageScheduler, which the scripts configure but do not contain.
Within a stage of duration `d` going from `c0` to `c1` the target is
`c0 + (c1 - c0) * (elapsed_in_stage / d)`, rounded; a stage starts from the target the
previous one ended on (`c0` before the first stage); a zero-duration stage is skipped with no
change attributed to it; after the last stage the target is 0.  A stage's window holds the
times `start ≤ t < start + d`; `t` is the time elapsed, in seconds. -/
def targetConcurrency : List TimedStage → Nat → ℚ → Int
  | [], _, _ => 0
  | s :: rest, c0, t =>
    if s.seconds = 0 then targetConcurrency rest c0 t
    else if t < (s.seconds : ℚ) then
      roundNearest ((c0 : ℚ) + ((s.target : ℚ) - (c0 : ℚ)) * (t / (s.seconds : ℚ)))
    else targetConcurrency rest s.target (t - (s.seconds : ℚ))

/-- The target at elapsed time `t` for an `options.stages` list as written in a script;
`none` when the list is malformed. -/
def scheduleTarget (stages : List Stage) (c0 : Nat) (t : ℚ) : Option Int :=
  (parseStages stages).map (fun ts => targetConcurrency ts c0 t)

/-- The end time of every stage: the running sums of the durations. -/
def stageEnds : List TimedStage → Nat → List Nat
  | [], _ => []
  | s :: rest, start => (start + s.seconds) :: stageEnds rest (start + s.seconds)

/-- The target computed at the exact end time of every stage, in stage order. -/
def targetsAtStageEnds (stages : List Stage) (c0 : Nat) : Option (List Int) :=
  (parseStages stages).map (fun ts => (stageEnds ts 0).map (fun (e : Nat) => targetConcurrency ts c0 (e : ℚ)))

/-- The largest configured stage target. -/
def maxTarget (stages : List Stage) : Nat :=
  (stages.map (fun s => s.target)).foldr max 0

/-! ## Percentile thresholds -/

/-- Modelled from the spec: the exact percentile of the MetricsCollector ("exact sorted
structure"), by nearest rank: the smallest sample with at least `n` percent of the samples at
or below it; `none` without samples. -/
def percentile (n : Nat) (samples : List ℚ) : Option ℚ :=
  (samples.insertionSort (fun a b => a ≤ b))[⌈(n : ℚ) / 100 * (samples.length : ℚ)⌉₊ - 1]?

/-- Modelled from the spec: the percentile as the k6 runtime computes it, by linear
interpolation between the two samples around position `n / 100 * (count - 1)` of the sorted
samples; `none` without samples. -/
def percentileInterpolated (n : Nat) (samples : List ℚ) : Option ℚ :=
  let sorted := samples.insertionSort (fun a b => a ≤ b)
  let i : ℚ := (n : ℚ) / 100 * ((samples.length : ℚ) - 1)
  match sorted[⌊i⌋₊]?, sorted[⌈i⌉₊]? with
  | some j, some k => some (j + (k - j) * (i - (⌊i⌋₊ : ℚ)))
  | _, _ => none

/-- Modelled from the spec: the ThresholdEvaluator on one threshold and the samples of its
metric: the aggregate is compared with the bound; a metric without samples is indeterminate
and counts as failed. -/
def Threshold.passed (th : Threshold) (samples : List ℚ) : Bool :=
  match th.agg with
  | Aggregate.p n =>
    match percentile n samples with
    | some v => decide (v < th.bound)
    | none => false
  | Aggregate.rate => rateBelow th.bound samples

/-- The thresholds a script configures on one metric. -/
def thresholdsOn (ths : List Threshold) (metric : String) : List Threshold :=
  ths.filter (fun th => th.metric = metric)


/-! ## Accounting of failed checks -/

/-- A list of events in which the samples of `errors` are one value 1 for every failed check
and nothing else. -/
def Accounted (tr : List Event) : Prop :=
  errorsSamples tr = List.replicate (failedChecks tr) 1

/-- The three responses of a baseline iteration all carry a body (none is the response to a
refused or timed-out request), so that `r.json` does not raise on them. -/
def HasBodies (i : Response × Response × Response) : Prop :=
  i.1.body.isSome = true ∧ i.2.1.body.isSome = true ∧ i.2.2.body.isSome = true

/-! ## Sample inputs -/

/-- An environment in which no variable is set. -/
def emptyEnv : Env := fun _ => none

/-- An environment in which `BASE_URL` is set to `v` and nothing else is set. -/
def envWithBaseUrl (v : String) : Env := fun k => if k = "BASE_URL" then some v else none

/-- A response that passes every check of every script. -/
def okResponse : Response :=
  ⟨200, some (JsonValue.obj
    [ ("service", JsonValue.str "sample-app"),
      ("status", JsonValue.str "healthy"),
      ("users", JsonValue.arr []) ])⟩

/-- A response that fails every check of every script. -/
def errorResponse : Response :=
  ⟨500, some (JsonValue.obj [("error", JsonValue.str "internal")])⟩

/-- The response to a request that was refused or timed out: status 0 and no body. -/
def refusedResponse : Response :=
  ⟨0, none⟩

/-- A run of 100 iterations of the baseline script, 300 check calls, in which the three
requests of the first iteration are answered with an error and every later one succeeds. -/
def onePercentRun : List (Response × Response × Response) :=
  (errorResponse, errorResponse, errorResponse)
    :: List.replicate 99 (okResponse, okResponse, okResponse)

/-- A draw just below 2/3: the double `6004799503160661 * 2 ^ -53`. -/
def drawBelowTwoThirds : Double := ⟨6004799503160661, -53⟩

/-- A draw just below 1/3: the double `6004799503160661 * 2 ^ -54`. -/
def drawBelowOneThird : Double := ⟨6004799503160661, -54⟩

/-- The draw one half: the double `1 * 2 ^ -1`. -/
def drawHalf : Double := ⟨1, -1⟩


/-! ## Reading the events of a check -/

section Readers

theorem errorsSamples_append (a b : List Event) :
    errorsSamples (a ++ b) = errorsSamples a ++ errorsSamples b := by
  simp [errorsSamples]

theorem checkCalls_append (a b : List Event) :
    checkCalls (a ++ b) = checkCalls a ++ checkCalls b := by
  simp [checkCalls]

theorem failedChecks_append (a b : List Event) :
    failedChecks (a ++ b) = failedChecks a + failedChecks b := by
  simp [failedChecks, checkCalls_append]

theorem steps_append (a b : List Event) : steps (a ++ b) = steps a ++ steps b := by
  simp [steps]

theorem requestedUrls_append (a b : List Event) :
    requestedUrls (a ++ b) = requestedUrls a ++ requestedUrls b := by
  simp [requestedUrls]

theorem thinkTime_append (a b : List Event) :
    thinkTime (a ++ b) = thinkTime a + thinkTime b := by
  simp [thinkTime]

/-- When no predicate raises, every predicate is recorded with its value. -/
theorem evalChecks_of_neverRaises (res : Response) (sets : List Predicate)
    (h : NeverRaises res sets) :
    evalChecks res sets = (sets.map (fun p => (p.1, (p.2 res).getD false)), false) := by
  induction sets with
  | nil => rfl
  | cons p ps ih =>
    have hp : (p.2 res).isSome = true := h p (List.mem_cons_self _ _)
    have hps : NeverRaises res ps := fun q hq => h q (List.mem_cons_of_mem _ hq)
    obtain ⟨b, hb⟩ := Option.isSome_iff_exists.1 hp
    simp only [evalChecks, hb, ih hps, List.map_cons, Option.getD_some]

theorem all_map_getD (res : Response) (sets : List Predicate) :
    (sets.map (fun p => (p.1, (p.2 res).getD false))).all (fun p => p.2)
      = sets.all (fun p => (p.2 res).getD false) := by
  induction sets with
  | nil => rfl
  | cons p ps ih => rw [List.map_cons, List.all_cons, List.all_cons, ih]

/-- When no predicate raises, the statement records the check, adds one sample of 1 if the
check failed, and goes on with the rest of the body. -/
theorem checkOrAdd_of_neverRaises (res : Response) (sets : List Predicate) (rest : List Event)
    (h : NeverRaises res sets) :
    checkOrAdd res sets rest =
      Event.check (sets.map (fun p => (p.1, (p.2 res).getD false))) ::
        ((if sets.all (fun p => (p.2 res).getD false) then [] else [Event.errorRateAdd 1])
          ++ rest) := by
  unfold checkOrAdd check
  simp only [evalChecks_of_neverRaises res sets h, all_map_getD]
  cases sets.all (fun p => (p.2 res).getD false) <;> simp

theorem errorsSamples_checkOrAdd (res : Response) (sets : List Predicate) (rest : List Event)
    (h : NeverRaises res sets) :
    errorsSamples (checkOrAdd res sets rest) =
      (if sets.all (fun p => (p.2 res).getD false) then [] else [1]) ++ errorsSamples rest := by
  rw [checkOrAdd_of_neverRaises res sets rest h]
  cases sets.all (fun p => (p.2 res).getD false) <;> simp [errorsSamples]

theorem checkCalls_checkOrAdd (res : Response) (sets : List Predicate) (rest : List Event)
    (h : NeverRaises res sets) :
    checkCalls (checkOrAdd res sets rest) =
      sets.all (fun p => (p.2 res).getD false) :: checkCalls rest := by
  rw [checkOrAdd_of_neverRaises res sets rest h]
  have hall := all_map_getD res sets
  cases hc : sets.all (fun p => (p.2 res).getD false) <;>
    simp [checkCalls, hall, hc]

theorem steps_checkOrAdd (res : Response) (sets : List Predicate) (rest : List Event)
    (h : NeverRaises res sets) :
    steps (checkOrAdd res sets rest) = steps rest := by
  rw [checkOrAdd_of_neverRaises res sets rest h]
  cases sets.all (fun p => (p.2 res).getD false) <;> simp [steps]

theorem requestedUrls_checkOrAdd (res : Response) (sets : List Predicate) (rest : List Event)
    (h : NeverRaises res sets) :
    requestedUrls (checkOrAdd res sets rest) = requestedUrls rest := by
  rw [checkOrAdd_of_neverRaises res sets rest h]
  cases sets.all (fun p => (p.2 res).getD false) <;> simp [requestedUrls]

theorem thinkTime_checkOrAdd (res : Response) (sets : List Predicate) (rest : List Event)
    (h : NeverRaises res sets) :
    thinkTime (checkOrAdd res sets rest) = thinkTime rest := by
  rw [checkOrAdd_of_neverRaises res sets rest h]
  cases sets.all (fun p => (p.2 res).getD false) <;> simp [thinkTime]

/-- Whatever the check does, the statement adds no sample other than 1. -/
theorem errorsSamples_checkOrAdd_ones (res : Response) (sets : List Predicate)
    (rest : List Event) (hrest : ∀ v ∈ errorsSamples rest, v = 1) :
    ∀ v ∈ errorsSamples (checkOrAdd res sets rest), v = 1 := by
  unfold checkOrAdd check
  intro v hv
  split at hv
  · simp only [errorsSamples_append] at hv
    simp only [errorsSamples, List.filterMap_cons, List.filterMap_nil, List.nil_append] at hv
    exact hrest v (by simpa [errorsSamples] using hv)
  · simp only [errorsSamples_append] at hv
    simp only [errorsSamples, List.filterMap_cons, List.filterMap_nil, List.nil_append,
      List.mem_cons] at hv
    rcases hv with hv | hv
    · exact hv
    · exact hrest v (by simpa [errorsSamples] using hv)
  · simp [errorsSamples] at hv

/-- Whatever the check does, the statement requests nothing beyond the rest of the body. -/
theorem requestedUrls_checkOrAdd_subset (res : Response) (sets : List Predicate)
    (rest : List Event) :
    ∀ u ∈ requestedUrls (checkOrAdd res sets rest), u ∈ requestedUrls rest := by
  unfold checkOrAdd check
  intro u hu
  split at hu
  · simpa [requestedUrls] using hu
  · simpa [requestedUrls] using hu
  · simp [requestedUrls] at hu

theorem neverRaises_status (res : Response) (name : String) (f : Response → Bool) :
    NeverRaises res [(name, fun r => some (f r))] := by
  intro p hp
  rw [List.mem_singleton] at hp
  rw [hp]
  rfl

theorem json_isSome_of_body (r : Response) (sel : String) (h : r.body.isSome = true) :
    (r.json sel).isSome = true := by
  unfold Response.json
  obtain ⟨b, hb⟩ := Option.isSome_iff_exists.1 h
  rw [hb]
  cases b <;> rfl

theorem neverRaises_rootChecks (r : Response) (h : r.body.isSome = true) :
    NeverRaises r baseline.rootChecks := by
  intro p hp
  have hj := json_isSome_of_body r "service" h
  simp only [baseline.rootChecks, List.mem_cons, List.mem_singleton, List.not_mem_nil,
    or_false] at hp
  rcases hp with rfl | rfl
  · rfl
  · simpa using hj

theorem neverRaises_healthChecks (r : Response) (h : r.body.isSome = true) :
    NeverRaises r baseline.healthChecks := by
  intro p hp
  have hj := json_isSome_of_body r "status" h
  simp only [baseline.healthChecks, List.mem_cons, List.mem_singleton, List.not_mem_nil,
    or_false] at hp
  rcases hp with rfl | rfl
  · rfl
  · simpa using hj

theorem neverRaises_apiChecks (r : Response) (h : r.body.isSome = true) :
    NeverRaises r baseline.apiChecks := by
  intro p hp
  have hj := json_isSome_of_body r "users" h
  simp only [baseline.apiChecks, List.mem_cons, List.mem_singleton, List.not_mem_nil,
    or_false] at hp
  rcases hp with rfl | rfl
  · rfl
  · simpa using hj

theorem accounted_nil : Accounted [] := by
  simp [Accounted, errorsSamples, failedChecks, checkCalls]

theorem accounted_append {a b : List Event} (ha : Accounted a) (hb : Accounted b) :
    Accounted (a ++ b) := by
  unfold Accounted at *
  rw [errorsSamples_append, failedChecks_append, ha, hb, List.replicate_add]

theorem accounted_checkOrAdd (res : Response) (sets : List Predicate) (rest : List Event)
    (h : NeverRaises res sets) (hrest : Accounted rest) :
    Accounted (checkOrAdd res sets rest) := by
  unfold Accounted failedChecks at *
  rw [errorsSamples_checkOrAdd res sets rest h, checkCalls_checkOrAdd res sets rest h, hrest]
  cases sets.all (fun p => (p.2 res).getD false) <;> simp [List.replicate_succ]

theorem accounted_httpGet (url : String) (rest : List Event) (hrest : Accounted rest) :
    Accounted (Event.httpGet url :: rest) := by
  unfold Accounted failedChecks at *
  simpa [errorsSamples, checkCalls] using hrest

theorem accounted_httpBatch (reqs : List (String × String)) (rest : List Event)
    (hrest : Accounted rest) : Accounted (Event.httpBatch reqs :: rest) := by
  unfold Accounted failedChecks at *
  simpa [errorsSamples, checkCalls] using hrest

theorem accounted_sleep (d : ℚ) (rest : List Event) (hrest : Accounted rest) :
    Accounted (Event.sleep d :: rest) := by
  unfold Accounted failedChecks at *
  simpa [errorsSamples, checkCalls] using hrest

theorem accounted_flatMap {α : Type} (f : α → List Event) (xs : List α)
    (h : ∀ x ∈ xs, Accounted (f x)) : Accounted (xs.flatMap f) := by
  induction xs with
  | nil => simpa using accounted_nil
  | cons x xs ih =>
    rw [List.flatMap_cons]
    exact accounted_append (h x (List.mem_cons_self _ _))
      (ih (fun y hy => h y (List.mem_cons_of_mem _ hy)))

theorem accounted_baseline (env : Env) (r1 r2 r3 : Response) (h : HasBodies (r1, r2, r3)) :
    Accounted (baseline.default env r1 r2 r3) := by
  unfold baseline.default
  obtain ⟨h1, h2, h3⟩ := h
  apply accounted_httpGet
  apply accounted_checkOrAdd _ _ _ (neverRaises_rootChecks r1 h1)
  apply accounted_sleep
  apply accounted_httpGet
  apply accounted_checkOrAdd _ _ _ (neverRaises_healthChecks r2 h2)
  apply accounted_sleep
  apply accounted_httpGet
  apply accounted_checkOrAdd _ _ _ (neverRaises_apiChecks r3 h3)
  exact accounted_sleep _ _ accounted_nil

theorem accounted_soak (env : Env) (r1 r2 r3 : Response) :
    Accounted (soak.default env r1 r2 r3) := by
  unfold soak.default
  apply accounted_httpGet
  apply accounted_checkOrAdd _ _ _ (neverRaises_status _ _ _)
  apply accounted_sleep
  apply accounted_httpGet
  apply accounted_checkOrAdd _ _ _ (neverRaises_status _ _ _)
  apply accounted_sleep
  apply accounted_httpGet
  apply accounted_checkOrAdd _ _ _ (neverRaises_status _ _ _)
  exact accounted_sleep _ _ accounted_nil

theorem accounted_spike (env : Env) (random : Double) (res : Response) :
    Accounted (spike.default env random res) := by
  unfold spike.default
  split
  · exact accounted_nil
  · apply accounted_httpGet
    apply accounted_checkOrAdd _ _ _ (neverRaises_status _ _ _)
    exact accounted_sleep _ _ accounted_nil

theorem neverRaises_batchChecks (res : Response) : NeverRaises res stress.batchChecks :=
  neverRaises_status _ _ _

theorem accounted_stress (env : Env) (responses : List Response) :
    Accounted (stress.default env responses) := by
  unfold stress.default
  apply accounted_httpBatch
  induction responses with
  | nil => exact accounted_sleep _ _ accounted_nil
  | cons r rs ih =>
    rw [List.foldr_cons]
    exact accounted_checkOrAdd _ _ _ (neverRaises_batchChecks r) ih

theorem rate_replicate_one (n : Nat) :
    rate (List.replicate n (1 : ℚ)) = if n = 0 then none else some 1 := by
  cases n with
  | zero => simp [rate]
  | succ k =>
    have h : (List.replicate (k + 1) (1 : ℚ)).filter (fun v => v ≠ 0)
        = List.replicate (k + 1) (1 : ℚ) := by
      apply List.filter_eq_self.2
      intro a ha
      simp [List.eq_of_mem_replicate ha]
    have hne : List.replicate (k + 1) (1 : ℚ) ≠ [] := by
      simp [List.replicate_succ]
    unfold rate
    rw [if_neg hne, h]
    have hk : ((k : ℚ) + 1) ≠ 0 := by positivity
    simp [hk]

theorem accounted_summary {tr : List Event} (h : Accounted tr) :
    (∀ v ∈ errorsSamples tr, v = 1)
      ∧ (errorsSamples tr).length = failedChecks tr
      ∧ rate (errorsSamples tr) = if failedChecks tr = 0 then none else some 1 := by
  unfold Accounted at h
  refine ⟨?_, ?_, ?_⟩
  · intro v hv
    rw [h] at hv
    exact List.eq_of_mem_replicate hv
  · rw [h, List.length_replicate]
  · rw [h, rate_replicate_one]

theorem count_false_map_decide {α : Type} (p : α → Prop) [DecidablePred p] (l : List α) :
    (l.map (fun a => decide (p a))).count false
      = (l.filter (fun a => decide (¬ p a))).length := by
  induction l with
  | nil => rfl
  | cons a l ih =>
    by_cases h : p a <;> simp [List.count_cons, List.filter_cons, h, ih]

end Readers

/-! ## The custom metric `errors` -/

theorem hasBodies_ok : HasBodies (okResponse, okResponse, okResponse) :=
  ⟨rfl, rfl, rfl⟩

theorem hasBodies_error : HasBodies (errorResponse, errorResponse, errorResponse) :=
  ⟨rfl, rfl, rfl⟩

theorem checkCalls_httpGet_cons (url : String) (rest : List Event) :
    checkCalls (Event.httpGet url :: rest) = checkCalls rest := by
  simp [checkCalls]

theorem checkCalls_sleep_cons (d : ℚ) (rest : List Event) :
    checkCalls (Event.sleep d :: rest) = checkCalls rest := by
  simp [checkCalls]

theorem checkCalls_baseline (env : Env) (r1 r2 r3 : Response) (h : HasBodies (r1, r2, r3)) :
    checkCalls (baseline.default env r1 r2 r3) =
      [ baseline.rootChecks.all (fun p => (p.2 r1).getD false),
        baseline.healthChecks.all (fun p => (p.2 r2).getD false),
        baseline.apiChecks.all (fun p => (p.2 r3).getD false) ] := by
  obtain ⟨h1, h2, h3⟩ := h
  unfold baseline.default
  simp only [checkCalls_httpGet_cons, checkCalls_sleep_cons,
    checkCalls_checkOrAdd _ _ _ (neverRaises_rootChecks r1 h1),
    checkCalls_checkOrAdd _ _ _ (neverRaises_healthChecks r2 h2),
    checkCalls_checkOrAdd _ _ _ (neverRaises_apiChecks r3 h3)]
  simp [checkCalls]

theorem checkCalls_baseline_ok (env : Env) :
    checkCalls (baseline.default env okResponse okResponse okResponse) = [true, true, true] := by
  rw [checkCalls_baseline env _ _ _ hasBodies_ok]
  decide

theorem checkCalls_baseline_error (env : Env) :
    checkCalls (baseline.default env errorResponse errorResponse errorResponse)
      = [false, false, false] := by
  rw [checkCalls_baseline env _ _ _ hasBodies_error]
  decide

theorem checkCalls_baseline_run_ok (env : Env) (n : Nat) :
    checkCalls (baseline.run env (List.replicate n (okResponse, okResponse, okResponse)))
      = List.replicate (3 * n) true := by
  induction n with
  | zero => simp [baseline.run, checkCalls]
  | succ k ih =>
    unfold baseline.run at *
    rw [List.replicate_succ, List.flatMap_cons, checkCalls_append, ih, checkCalls_baseline_ok]
    have h : 3 * (k + 1) = 3 + 3 * k := by ring
    rw [h, List.replicate_add]
    rfl

theorem checkCalls_onePercentRun (env : Env) :
    checkCalls (baseline.run env onePercentRun)
      = [false, false, false] ++ List.replicate 297 true := by
  unfold onePercentRun baseline.run
  rw [List.flatMap_cons, checkCalls_append, checkCalls_baseline_error]
  have h := checkCalls_baseline_run_ok env 99
  unfold baseline.run at h
  rw [h]

theorem hasBodies_onePercentRun : ∀ i ∈ onePercentRun, HasBodies i := by
  intro i hi
  unfold onePercentRun at hi
  rcases List.mem_cons.1 hi with h | h
  · rw [h]; exact hasBodies_error
  · rw [List.eq_of_mem_replicate h]; exact hasBodies_ok

theorem accounted_baseline_run (env : Env) (bs : List (Response × Response × Response))
    (hbs : ∀ i ∈ bs, HasBodies i) : Accounted (baseline.run env bs) :=
  accounted_flatMap _ _ (fun i hi => accounted_baseline env i.1 i.2.1 i.2.2 (hbs i hi))

/-- C1 (evaluation at the failing run): in a run of the baseline script with 300 check calls of
which 3 fail, the fraction of failed check calls is 1/100, yet the metric `errors` holds three
samples, all 1, its rate is 1, and the configured threshold `rate<0.05` on it does not pass. -/
theorem baseline_errors_rate_on_onePercentRun :
    (checkCalls (baseline.run emptyEnv onePercentRun)).length = 300
      ∧ failedChecks (baseline.run emptyEnv onePercentRun) = 3
      ∧ failedFraction (baseline.run emptyEnv onePercentRun) = some (1 / 100)
      ∧ errorsSamples (baseline.run emptyEnv onePercentRun) = [1, 1, 1]
      ∧ rate (errorsSamples (baseline.run emptyEnv onePercentRun)) = some 1
      ∧ thresholdsOn baseline.options_thresholds "errors" = [⟨"errors", Aggregate.rate, 5 / 100⟩]
      ∧ (thresholdsOn baseline.options_thresholds "errors").all
          (fun th => th.passed (errorsSamples (baseline.run emptyEnv onePercentRun))) = false := by
  have hc := checkCalls_onePercentRun emptyEnv
  have hlen : (checkCalls (baseline.run emptyEnv onePercentRun)).length = 300 := by
    rw [hc, List.length_append, List.length_replicate]; rfl
  have hf : failedChecks (baseline.run emptyEnv onePercentRun) = 3 := by
    unfold failedChecks
    rw [hc, List.count_append, List.count_replicate]
    rfl
  have hacc : Accounted (baseline.run emptyEnv onePercentRun) :=
    accounted_baseline_run emptyEnv onePercentRun hasBodies_onePercentRun
  have hs : errorsSamples (baseline.run emptyEnv onePercentRun) = [1, 1, 1] := by
    rw [hacc, hf]; rfl
  have hr : rate (errorsSamples (baseline.run emptyEnv onePercentRun)) = some 1 := by
    rw [(accounted_summary hacc).2.2, hf]; simp
  have hth : thresholdsOn baseline.options_thresholds "errors"
      = [⟨"errors", Aggregate.rate, 5 / 100⟩] := by
    rfl
  refine ⟨hlen, hf, ?_, hs, hr, hth, ?_⟩
  · unfold failedFraction
    have hne : checkCalls (baseline.run emptyEnv onePercentRun) ≠ [] := by
      rw [hc]; exact List.cons_ne_nil _ _
    rw [if_neg hne, hf, hlen]
    norm_num
  · rw [hth]
    simp only [List.all_cons, List.all_nil, Threshold.passed, rateBelow, hr]
    norm_num

theorem errorsSamples_httpGet_cons (url : String) (rest : List Event) :
    errorsSamples (Event.httpGet url :: rest) = errorsSamples rest := by
  simp [errorsSamples]

theorem errorsSamples_sleep_cons (d : ℚ) (rest : List Event) :
    errorsSamples (Event.sleep d :: rest) = errorsSamples rest := by
  simp [errorsSamples]

/-- Every sample an iteration of the baseline script adds is 1, whatever the responses. -/
theorem errorsSamples_baseline_ones (env : Env) (r1 r2 r3 : Response) :
    ∀ v ∈ errorsSamples (baseline.default env r1 r2 r3), v = 1 := by
  unfold baseline.default
  rw [errorsSamples_httpGet_cons]
  apply errorsSamples_checkOrAdd_ones
  rw [errorsSamples_sleep_cons, errorsSamples_httpGet_cons]
  apply errorsSamples_checkOrAdd_ones
  rw [errorsSamples_sleep_cons, errorsSamples_httpGet_cons]
  apply errorsSamples_checkOrAdd_ones
  intro v hv
  simp [errorsSamples] at hv

theorem errorsSamples_baseline_run_ones (env : Env)
    (bs : List (Response × Response × Response)) :
    ∀ v ∈ errorsSamples (baseline.run env bs), v = 1 := by
  induction bs with
  | nil => intro v hv; simp [baseline.run, errorsSamples] at hv
  | cons i is ih =>
    intro v hv
    unfold baseline.run at hv ih
    rw [List.flatMap_cons, errorsSamples_append, List.mem_append] at hv
    rcases hv with h | h
    · exact errorsSamples_baseline_ones env _ _ _ v h
    · exact ih v h

/-- C9 (counterexample): in a run of the baseline script whose first request is refused, the
first check call fails, yet `errors` receives no sample: the samples are fewer than the failed
check calls and the rate is not 1. -/
theorem baseline_failed_check_without_sample :
    failedChecks (baseline.run emptyEnv [(refusedResponse, okResponse, okResponse)]) = 1
      ∧ errorsSamples (baseline.run emptyEnv [(refusedResponse, okResponse, okResponse)]) = []
      ∧ rate (errorsSamples (baseline.run emptyEnv [(refusedResponse, okResponse, okResponse)]))
          = none := by
  have hs : errorsSamples (baseline.run emptyEnv [(refusedResponse, okResponse, okResponse)])
      = [] := by
    rfl
  refine ⟨by rfl, hs, ?_⟩
  rw [hs]
  rfl

/-- C9 (amended): every sample any run of the baseline script adds to `errors` is 1; in every
run of the soak, spike and stress scripts, and in every run of the baseline script whose
responses all carry a body, the samples of `errors` are exactly one value 1 per failed check
call (a passing check adds none), so a run without a failed check leaves `errors` without
samples and a run with a failed check gives it rate 1. -/
theorem errors_samples_are_the_failed_checks (env : Env)
    (anyBs bs ss : List (Response × Response × Response)) (hbs : ∀ i ∈ bs, HasBodies i)
    (ks : List (Double × Response)) (ts : List (List Response)) :
    (∀ v ∈ errorsSamples (baseline.run env anyBs), v = 1)
    ∧ (errorsSamples (baseline.run env bs) = List.replicate (failedChecks (baseline.run env bs)) 1
      ∧ rate (errorsSamples (baseline.run env bs))
          = if failedChecks (baseline.run env bs) = 0 then none else some 1)
    ∧ (errorsSamples (soak.run env ss) = List.replicate (failedChecks (soak.run env ss)) 1
      ∧ rate (errorsSamples (soak.run env ss))
          = if failedChecks (soak.run env ss) = 0 then none else some 1)
    ∧ (errorsSamples (spike.run env ks) = List.replicate (failedChecks (spike.run env ks)) 1
      ∧ rate (errorsSamples (spike.run env ks))
          = if failedChecks (spike.run env ks) = 0 then none else some 1)
    ∧ (errorsSamples (stress.run env ts) = List.replicate (failedChecks (stress.run env ts)) 1
      ∧ rate (errorsSamples (stress.run env ts))
          = if failedChecks (stress.run env ts) = 0 then none else some 1) := by
  have hb : Accounted (baseline.run env bs) := accounted_baseline_run env bs hbs
  have hs : Accounted (soak.run env ss) :=
    accounted_flatMap _ _ (fun i _ => accounted_soak env i.1 i.2.1 i.2.2)
  have hk : Accounted (spike.run env ks) :=
    accounted_flatMap _ _ (fun i _ => accounted_spike env i.1 i.2)
  have ht : Accounted (stress.run env ts) :=
    accounted_flatMap _ _ (fun rs _ => accounted_stress env rs)
  exact ⟨errorsSamples_baseline_run_ones env anyBs,
    ⟨hb, (accounted_summary hb).2.2⟩, ⟨hs, (accounted_summary hs).2.2⟩,
    ⟨hk, (accounted_summary hk).2.2⟩, ⟨ht, (accounted_summary ht).2.2⟩⟩

/-- C9 (witness of the amended claim): a baseline run with one failed check on a response
that carries a body, next to a run with a refused request. -/
theorem errors_samples_are_the_failed_checks_witness :
    (∀ i ∈ [(errorResponse, okResponse, okResponse)], HasBodies i)
      ∧ (∀ v ∈ errorsSamples (baseline.run emptyEnv [(refusedResponse, okResponse, okResponse)]),
          v = 1)
      ∧ errorsSamples (baseline.run emptyEnv [(errorResponse, okResponse, okResponse)])
          = List.replicate
              (failedChecks (baseline.run emptyEnv [(errorResponse, okResponse, okResponse)])) 1 :=
  have hb : ∀ i ∈ [(errorResponse, okResponse, okResponse)], HasBodies i := by
    intro i hi
    rw [List.mem_singleton] at hi
    rw [hi]
    exact ⟨rfl, rfl, rfl⟩
  have h := errors_samples_are_the_failed_checks emptyEnv
    [(refusedResponse, okResponse, okResponse)] [(errorResponse, okResponse, okResponse)]
    [(refusedResponse, okResponse, errorResponse)] hb
    [(drawHalf, errorResponse)] [[okResponse, refusedResponse, errorResponse, okResponse]]
  ⟨hb, h.1, h.2.1.1⟩

/-! ## Session shape -/

theorem steps_httpGet_cons (url : String) (rest : List Event) :
    steps (Event.httpGet url :: rest) = Event.httpGet url :: steps rest := by
  simp [steps]

theorem steps_sleep_cons (d : ℚ) (rest : List Event) :
    steps (Event.sleep d :: rest) = Event.sleep d :: steps rest := by
  simp [steps]

theorem thinkTime_httpGet_cons (url : String) (rest : List Event) :
    thinkTime (Event.httpGet url :: rest) = thinkTime rest := by
  simp [thinkTime]

theorem thinkTime_sleep_cons (d : ℚ) (rest : List Event) :
    thinkTime (Event.sleep d :: rest) = d + thinkTime rest := by
  simp [thinkTime]

/-- Whatever the three responses, one iteration of the soak script requests `/`, `/api/users`,
`/health` under the base URL in that order, with sleeps 2, 3, 2. -/
theorem soak_iteration_steps (env : Env) (r1 r2 r3 : Response) :
    steps (soak.default env r1 r2 r3) =
        [ Event.httpGet (soak.BASE_URL env ++ "/"), Event.sleep 2,
          Event.httpGet (soak.BASE_URL env ++ "/api/users"), Event.sleep 3,
          Event.httpGet (soak.BASE_URL env ++ "/health"), Event.sleep 2 ]
      ∧ thinkTime (soak.default env r1 r2 r3) = 7 := by
  unfold soak.default
  constructor
  · simp only [steps_httpGet_cons, steps_sleep_cons,
      steps_checkOrAdd _ _ _ (neverRaises_status _ _ _)]
    simp [steps]
  · simp only [thinkTime_httpGet_cons, thinkTime_sleep_cons,
      thinkTime_checkOrAdd _ _ _ (neverRaises_status _ _ _)]
    simp [thinkTime]
    norm_num

/-- When the three responses carry a body, one iteration of the baseline script requests `/`,
`/health`, `/api/users` under the base URL in that order, each followed by `sleep(1)`. -/
theorem baseline_iteration_steps_of_bodies (env : Env) (r1 r2 r3 : Response)
    (h : HasBodies (r1, r2, r3)) :
    steps (baseline.default env r1 r2 r3) =
        [ Event.httpGet (baseline.BASE_URL env ++ "/"), Event.sleep 1,
          Event.httpGet (baseline.BASE_URL env ++ "/health"), Event.sleep 1,
          Event.httpGet (baseline.BASE_URL env ++ "/api/users"), Event.sleep 1 ]
      ∧ thinkTime (baseline.default env r1 r2 r3) = 3 := by
  obtain ⟨h1, h2, h3⟩ := h
  unfold baseline.default
  constructor
  · simp only [steps_httpGet_cons, steps_sleep_cons,
      steps_checkOrAdd _ _ _ (neverRaises_rootChecks r1 h1),
      steps_checkOrAdd _ _ _ (neverRaises_healthChecks r2 h2),
      steps_checkOrAdd _ _ _ (neverRaises_apiChecks r3 h3)]
    simp [steps]
  · simp only [thinkTime_httpGet_cons, thinkTime_sleep_cons,
      thinkTime_checkOrAdd _ _ _ (neverRaises_rootChecks r1 h1),
      thinkTime_checkOrAdd _ _ _ (neverRaises_healthChecks r2 h2),
      thinkTime_checkOrAdd _ _ _ (neverRaises_apiChecks r3 h3)]
    simp [thinkTime]
    norm_num

/-- C2 (evaluation at the failing input): when the first request of a baseline iteration is
refused (status 0, no body), the first check records `status is 200` as failed, raises in
`r.json('service')`, and the iteration ends there: one request, no sleep, no sample in
`errors`, no `/health` and no `/api/users`.  The soak script on the same responses performs
its three requests and three sleeps. -/
theorem baseline_iteration_ends_at_refused_request :
    baseline.default emptyEnv refusedResponse okResponse okResponse
        = [ Event.httpGet "http://sample-app.dev.svc.cluster.local/",
            Event.check [("status is 200", false), ("response has service", false)] ]
      ∧ requestedUrls (baseline.default emptyEnv refusedResponse okResponse okResponse)
        = ["http://sample-app.dev.svc.cluster.local/"]
      ∧ thinkTime (baseline.default emptyEnv refusedResponse okResponse okResponse) = 0
      ∧ errorsSamples (baseline.default emptyEnv refusedResponse okResponse okResponse) = []
      ∧ requestedUrls (soak.default emptyEnv refusedResponse okResponse okResponse)
        = [ "http://sample-app.dev.svc.cluster.local/",
            "http://sample-app.dev.svc.cluster.local/api/users",
            "http://sample-app.dev.svc.cluster.local/health" ]
      ∧ thinkTime (soak.default emptyEnv refusedResponse okResponse okResponse) = 7 := by
  have h : baseline.default emptyEnv refusedResponse okResponse okResponse
      = [ Event.httpGet "http://sample-app.dev.svc.cluster.local/",
          Event.check [("status is 200", false), ("response has service", false)] ] := by
    decide
  refine ⟨h, ?_, ?_, ?_, ?_, (soak_iteration_steps emptyEnv _ _ _).2⟩
  · rw [h]; rfl
  · rw [h]; simp [thinkTime]
  · rw [h]; rfl
  · decide

/-! ## The batch of the stress script -/

theorem all_batchChecks (r : Response) :
    stress.batchChecks.all (fun p => (p.2 r).getD false)
      = decide (200 ≤ r.status ∧ r.status < 300) := by
  simp [stress.batchChecks]

theorem checkCalls_forEach (responses : List Response) (rest : List Event) :
    checkCalls (responses.foldr (fun res rest => checkOrAdd res stress.batchChecks rest) rest)
      = responses.map (fun r => decide (200 ≤ r.status ∧ r.status < 300)) ++ checkCalls rest := by
  induction responses with
  | nil => rfl
  | cons r rs ih =>
    rw [List.foldr_cons, checkCalls_checkOrAdd _ _ _ (neverRaises_batchChecks r), ih,
      all_batchChecks]
    rfl

theorem steps_forEach (responses : List Response) (rest : List Event) :
    steps (responses.foldr (fun res rest => checkOrAdd res stress.batchChecks rest) rest)
      = steps rest := by
  induction responses with
  | nil => rfl
  | cons r rs ih =>
    rw [List.foldr_cons, steps_checkOrAdd _ _ _ (neverRaises_batchChecks r), ih]

theorem requestedUrls_forEach (responses : List Response) (rest : List Event) :
    requestedUrls
        (responses.foldr (fun res rest => checkOrAdd res stress.batchChecks rest) rest)
      = requestedUrls rest := by
  induction responses with
  | nil => rfl
  | cons r rs ih =>
    rw [List.foldr_cons, requestedUrls_checkOrAdd _ _ _ (neverRaises_batchChecks r), ih]

theorem forEach_ends_with (responses : List Response) (e : Event) :
    ∃ pre, responses.foldr (fun res rest => checkOrAdd res stress.batchChecks rest) [e]
      = pre ++ [e] := by
  induction responses with
  | nil => exact ⟨[], rfl⟩
  | cons r rs ih =>
    obtain ⟨pre, hpre⟩ := ih
    rw [List.foldr_cons, hpre, checkOrAdd_of_neverRaises _ _ _ (neverRaises_batchChecks r)]
    exact ⟨_, by rw [← List.append_assoc, ← List.cons_append]⟩

/-- C8: in one iteration of the stress script, for the responses `http.batch` returned (four
of them for the four requests of the batch), every response is checked, in order, against
`200 ≤ status < 300`; the samples added to `errors` are as many as the responses outside that
range; the iteration performs the batch, then the checks, then `sleep(0.5)`. -/
theorem stress_iteration_counts_non_2xx (env : Env) (responses : List Response) :
    (errorsSamples (stress.default env responses)).length
        = (responses.filter (fun r => decide (¬ (200 ≤ r.status ∧ r.status < 300)))).length
      ∧ checkCalls (stress.default env responses)
        = responses.map (fun r => decide (200 ≤ r.status ∧ r.status < 300))
      ∧ steps (stress.default env responses) =
        [ Event.httpBatch
            [ ("GET", stress.BASE_URL env ++ "/"), ("GET", stress.BASE_URL env ++ "/health"),
              ("GET", stress.BASE_URL env ++ "/ready"),
              ("GET", stress.BASE_URL env ++ "/api/users") ],
          Event.sleep (1 / 2) ]
      ∧ (stress.default env responses).getLast? = some (Event.sleep (1 / 2)) := by
  have hcc : checkCalls (stress.default env responses)
      = responses.map (fun r => decide (200 ≤ r.status ∧ r.status < 300)) := by
    unfold stress.default
    have h : ∀ (reqs : List (String × String)) (rest : List Event),
        checkCalls (Event.httpBatch reqs :: rest) = checkCalls rest := by
      intro reqs rest
      simp [checkCalls]
    rw [h, checkCalls_forEach]
    simp [checkCalls]
  refine ⟨?_, hcc, ?_, ?_⟩
  · have hacc := accounted_stress env responses
    rw [(accounted_summary hacc).2.1]
    unfold failedChecks
    rw [hcc]
    exact count_false_map_decide (fun r : Response => 200 ≤ r.status ∧ r.status < 300) responses
  · unfold stress.default
    have h : ∀ (reqs : List (String × String)) (rest : List Event),
        steps (Event.httpBatch reqs :: rest) = Event.httpBatch reqs :: steps rest := by
      intro reqs rest
      simp [steps]
    rw [h, steps_forEach]
    simp [steps]
  · unfold stress.default
    obtain ⟨pre, hpre⟩ := forEach_ends_with responses (Event.sleep (1 / 2))
    rw [hpre, ← List.cons_append]
    exact List.getLast?_concat _

/-! ## The base URL -/

theorem orDefault_of_nonempty (v d : String) (hv : v ≠ "") : orDefault (some v) d = v := by
  simp [orDefault, hv]

theorem requestedUrls_httpGet_cons (url : String) (rest : List Event) :
    requestedUrls (Event.httpGet url :: rest) = url :: requestedUrls rest := by
  simp [requestedUrls]

theorem requestedUrls_sleep_cons (d : ℚ) (rest : List Event) :
    requestedUrls (Event.sleep d :: rest) = requestedUrls rest := by
  simp [requestedUrls]

/-- Whatever the responses, an iteration of the baseline script requests nothing but `/`,
`/health` and `/api/users` under the base URL. -/
theorem requestedUrls_baseline_mem (env : Env) (r1 r2 r3 : Response) :
    ∀ u ∈ requestedUrls (baseline.default env r1 r2 r3),
      u ∈ [ baseline.BASE_URL env ++ "/", baseline.BASE_URL env ++ "/health",
            baseline.BASE_URL env ++ "/api/users" ] := by
  intro u hu
  unfold baseline.default at hu
  rw [requestedUrls_httpGet_cons, List.mem_cons] at hu
  rcases hu with hu | hu
  · rw [hu]; simp
  · have hu2 := requestedUrls_checkOrAdd_subset _ _ _ u hu
    rw [requestedUrls_sleep_cons, requestedUrls_httpGet_cons, List.mem_cons] at hu2
    rcases hu2 with hu2 | hu2
    · rw [hu2]; simp
    · have hu3 := requestedUrls_checkOrAdd_subset _ _ _ u hu2
      rw [requestedUrls_sleep_cons, requestedUrls_httpGet_cons, List.mem_cons] at hu3
      rcases hu3 with hu3 | hu3
      · rw [hu3]; simp
      · have hu4 := requestedUrls_checkOrAdd_subset _ _ _ u hu3
        simp [requestedUrls] at hu4

theorem requestedUrls_soak (env : Env) (r1 r2 r3 : Response) :
    requestedUrls (soak.default env r1 r2 r3)
      = [ soak.BASE_URL env ++ "/", soak.BASE_URL env ++ "/api/users",
          soak.BASE_URL env ++ "/health" ] := by
  unfold soak.default
  simp only [requestedUrls_httpGet_cons, requestedUrls_sleep_cons,
    requestedUrls_checkOrAdd _ _ _ (neverRaises_status _ _ _)]
  simp [requestedUrls]

theorem requestedUrls_stress (env : Env) (responses : List Response) :
    requestedUrls (stress.default env responses)
      = [ stress.BASE_URL env ++ "/", stress.BASE_URL env ++ "/health",
          stress.BASE_URL env ++ "/ready", stress.BASE_URL env ++ "/api/users" ] := by
  unfold stress.default
  have h : ∀ (reqs : List (String × String)) (rest : List Event),
      requestedUrls (Event.httpBatch reqs :: rest)
        = reqs.map (fun q => q.2) ++ requestedUrls rest := by
    intro reqs rest
    simp [requestedUrls]
  rw [h, requestedUrls_forEach]
  simp [requestedUrls]

/-- C3 (counterexample): with `BASE_URL` set to the empty string, no script uses that value
as its base URL; each falls back to the built-in address. -/
theorem base_url_empty_string_is_not_used :
    envWithBaseUrl "" "BASE_URL" = some ""
      ∧ baseline.BASE_URL (envWithBaseUrl "") ≠ ""
      ∧ soak.BASE_URL (envWithBaseUrl "") ≠ ""
      ∧ spike.BASE_URL (envWithBaseUrl "") ≠ ""
      ∧ stress.BASE_URL (envWithBaseUrl "") ≠ ""
      ∧ baseline.BASE_URL (envWithBaseUrl "") = "http://sample-app.dev.svc.cluster.local" := by
  decide

/-- C3 (amended): when `BASE_URL` is set to a non-empty string, the base URL of each of the
four scripts is that string and every requested URL is that string followed by the endpoint
path; when `BASE_URL` is not set, or set to the empty string, the base URL is
`http://sample-app.dev.svc.cluster.local`. -/
theorem base_url_override (env : Env) (v : String) (hset : env "BASE_URL" = some v)
    (hne : v ≠ "") (env0 : Env) (hunset : env0 "BASE_URL" = none ∨ env0 "BASE_URL" = some "")
    (r1 r2 r3 : Response) (responses : List Response) :
    (baseline.BASE_URL env = v ∧ soak.BASE_URL env = v ∧ spike.BASE_URL env = v
        ∧ stress.BASE_URL env = v)
      ∧ (∀ u ∈ requestedUrls (baseline.default env r1 r2 r3),
          u ∈ [v ++ "/", v ++ "/health", v ++ "/api/users"])
      ∧ requestedUrls (soak.default env r1 r2 r3) = [v ++ "/", v ++ "/api/users", v ++ "/health"]
      ∧ spike.endpoints env = [v ++ "/", v ++ "/health", v ++ "/api/users"]
      ∧ requestedUrls (stress.default env responses)
          = [v ++ "/", v ++ "/health", v ++ "/ready", v ++ "/api/users"]
      ∧ (baseline.BASE_URL env0 = "http://sample-app.dev.svc.cluster.local"
        ∧ soak.BASE_URL env0 = "http://sample-app.dev.svc.cluster.local"
        ∧ spike.BASE_URL env0 = "http://sample-app.dev.svc.cluster.local"
        ∧ stress.BASE_URL env0 = "http://sample-app.dev.svc.cluster.local") := by
  have hb : baseline.BASE_URL env = v := by
    unfold baseline.BASE_URL; rw [hset]; exact orDefault_of_nonempty _ _ hne
  have hs : soak.BASE_URL env = v := by
    unfold soak.BASE_URL; rw [hset]; exact orDefault_of_nonempty _ _ hne
  have hk : spike.BASE_URL env = v := by
    unfold spike.BASE_URL; rw [hset]; exact orDefault_of_nonempty _ _ hne
  have ht : stress.BASE_URL env = v := by
    unfold stress.BASE_URL; rw [hset]; exact orDefault_of_nonempty _ _ hne
  refine ⟨⟨hb, hs, hk, ht⟩, ?_, ?_, ?_, ?_, ?_⟩
  · have h := requestedUrls_baseline_mem env r1 r2 r3
    rw [hb] at h
    exact h
  · rw [requestedUrls_soak, hs]
  · unfold spike.endpoints
    rw [hk]
  · rw [requestedUrls_stress, ht]
  · unfold baseline.BASE_URL soak.BASE_URL spike.BASE_URL stress.BASE_URL
    rcases hunset with h | h <;> rw [h] <;> simp [orDefault]

/-- C3 (witness of the amended claim): `BASE_URL` set to `http://localhost:8080` in one
environment and not set in another. -/
theorem base_url_override_witness :
    envWithBaseUrl "http://localhost:8080" "BASE_URL" = some "http://localhost:8080"
      ∧ "http://localhost:8080" ≠ ""
      ∧ (emptyEnv "BASE_URL" = none ∨ emptyEnv "BASE_URL" = some "")
      ∧ baseline.BASE_URL (envWithBaseUrl "http://localhost:8080") = "http://localhost:8080"
      ∧ requestedUrls (soak.default (envWithBaseUrl "http://localhost:8080")
          okResponse errorResponse okResponse)
        = [ "http://localhost:8080" ++ "/", "http://localhost:8080" ++ "/api/users",
            "http://localhost:8080" ++ "/health" ]
      ∧ stress.BASE_URL emptyEnv = "http://sample-app.dev.svc.cluster.local" :=
  have h := base_url_override (envWithBaseUrl "http://localhost:8080") "http://localhost:8080"
    (by decide) (by decide) emptyEnv (Or.inl rfl) okResponse errorResponse okResponse
    [okResponse, okResponse, errorResponse, okResponse]
  ⟨by decide, by decide, Or.inl rfl, h.1.1, h.2.2.1, h.2.2.2.2.2.2.2.2⟩

/-! ## Double arithmetic -/

theorem roundHalfEven_ge_floor (q : ℚ) : ⌊q⌋ ≤ roundHalfEven q := by
  unfold roundHalfEven
  split_ifs <;> omega

theorem roundHalfEven_le_floor_succ (q : ℚ) : roundHalfEven q ≤ ⌊q⌋ + 1 := by
  unfold roundHalfEven
  split_ifs <;> omega

theorem roundHalfEven_ge_int (q : ℚ) (j : Int) (h : (j : ℚ) ≤ q) : j ≤ roundHalfEven q :=
  le_trans (Int.le_floor.2 h) (roundHalfEven_ge_floor q)

theorem roundHalfEven_le_add_half (q : ℚ) : (roundHalfEven q : ℚ) ≤ q + 1 / 2 := by
  have h1 := Int.floor_le q
  unfold roundHalfEven
  split_ifs with ha hb hc
  · linarith
  · push_cast; linarith
  · linarith
  · push_cast
    have : q - (⌊q⌋ : ℚ) = 1 / 2 := le_antisymm (not_lt.1 hb) (not_lt.1 ha)
    linarith

theorem ulpAt_pos (x : ℚ) : 0 < ulpAt x := by
  unfold ulpAt
  positivity

/-- Below 4 the spacing of the doubles is `1 / N` for a whole number `N ≥ 2 ^ 51`. -/
theorem ulpAt_of_lt_four (x : ℚ) (h0 : 0 < x) (h4 : x < 4) :
    ∃ N : Nat, 2 ^ 51 ≤ N ∧ ulpAt x * (N : ℚ) = 1 := by
  have hlog : Int.log 2 x < 2 := by
    apply (Int.lt_zpow_iff_log_lt (by norm_num) h0).1
    norm_num
    exact h4
  have he : max (Int.log 2 x) (-1022) ≤ 1 := max_le (by omega) (by norm_num)
  obtain ⟨k, hk⟩ : ∃ k : Nat, (k : Int) = 52 - max (Int.log 2 x) (-1022) :=
    ⟨(52 - max (Int.log 2 x) (-1022)).toNat, Int.toNat_of_nonneg (by omega)⟩
  refine ⟨2 ^ k, Nat.pow_le_pow_right (by norm_num) (by omega), ?_⟩
  unfold ulpAt
  have h2 : (2 : ℚ) ≠ 0 := by norm_num
  rw [Nat.cast_pow, Nat.cast_ofNat, ← zpow_natCast, hk, ← zpow_add₀ h2]
  have : max (Int.log 2 x) (-1022) - 52 + (52 - max (Int.log 2 x) (-1022)) = 0 := by ring
  rw [this, zpow_zero]

theorem ulpAt_of_two_le (x : ℚ) (h2 : 2 ≤ x) (h4 : x < 4) : ulpAt x = 1 / 2 ^ 51 := by
  have h0 : 0 < x := by linarith
  have hlt : Int.log 2 x < 2 := by
    apply (Int.lt_zpow_iff_log_lt (by norm_num) h0).1
    norm_num
    exact h4
  have hge : 1 ≤ Int.log 2 x := by
    apply (Int.zpow_le_iff_le_log (by norm_num) h0).1
    norm_num
    exact h2
  have he : Int.log 2 x = 1 := by omega
  unfold ulpAt
  rw [he]
  norm_num

theorem roundToDouble_nonneg (x : ℚ) (h0 : 0 ≤ x) : 0 ≤ roundToDouble x := by
  unfold roundToDouble
  have hq : ((0 : Int) : ℚ) ≤ x / ulpAt x := by
    push_cast
    exact div_nonneg h0 (ulpAt_pos x).le
  have hk : (0 : Int) ≤ roundHalfEven (x / ulpAt x) := roundHalfEven_ge_int _ 0 hq
  have hk2 : (0 : ℚ) ≤ (roundHalfEven (x / ulpAt x) : ℚ) := by exact_mod_cast hk
  exact mul_nonneg hk2 (ulpAt_pos x).le

/-- Rounding does not cross a whole number from above: a product at or above `i` rounds to a
double at or above `i`. -/
theorem roundToDouble_ge_int (x : ℚ) (i : Int) (h0 : 0 < x) (h4 : x < 4) (hi : (i : ℚ) ≤ x) :
    (i : ℚ) ≤ roundToDouble x := by
  obtain ⟨N, _, hN⟩ := ulpAt_of_lt_four x h0 h4
  have hu := ulpAt_pos x
  have hq : x / ulpAt x = x * (N : ℚ) := by
    field_simp
    rw [mul_assoc, mul_comm (N : ℚ), hN, mul_one]
  have hNpos : (0 : ℚ) ≤ (N : ℚ) := Nat.cast_nonneg N
  have hj : ((i * (N : Int) : Int) : ℚ) ≤ x / ulpAt x := by
    rw [hq]
    push_cast
    exact mul_le_mul_of_nonneg_right hi hNpos
  have hk := roundHalfEven_ge_int _ _ hj
  have hk2 : ((i * (N : Int) : Int) : ℚ) ≤ (roundHalfEven (x / ulpAt x) : ℚ) := by
    exact_mod_cast hk
  unfold roundToDouble
  have h3 : (i : ℚ) = ((i * (N : Int) : Int) : ℚ) * ulpAt x := by
    push_cast
    rw [mul_assoc, mul_comm (N : ℚ), hN, mul_one]
  rw [h3]
  exact mul_le_mul_of_nonneg_right hk2 hu.le

/-- Below 4 rounding moves a value up by at most `2 ^ -52`. -/
theorem roundToDouble_le_add (x : ℚ) (h0 : 0 < x) (h4 : x < 4) :
    roundToDouble x ≤ x + 1 / 2 ^ 52 := by
  obtain ⟨N, hN51, hN⟩ := ulpAt_of_lt_four x h0 h4
  have hu := ulpAt_pos x
  have hk := roundHalfEven_le_add_half (x / ulpAt x)
  unfold roundToDouble
  have h1 : (roundHalfEven (x / ulpAt x) : ℚ) * ulpAt x ≤ (x / ulpAt x + 1 / 2) * ulpAt x :=
    mul_le_mul_of_nonneg_right hk hu.le
  have h2 : (x / ulpAt x + 1 / 2) * ulpAt x = x + ulpAt x / 2 := by
    field_simp
    ring
  have hN51q : (2 : ℚ) ^ 51 ≤ (N : ℚ) := by exact_mod_cast hN51
  have hNpos : (0 : ℚ) < (N : ℚ) := lt_of_lt_of_le (by positivity) hN51q
  have h3 : ulpAt x = 1 / (N : ℚ) := by
    field_simp
    exact hN
  have h4 : ulpAt x ≤ 1 / 2 ^ 51 := by
    rw [h3]
    exact one_div_le_one_div_of_le (by positivity) hN51q
  have h5 : (1 : ℚ) / 2 ^ 51 / 2 = 1 / 2 ^ 52 := by norm_num
  linarith

/-- A product of at most `3 - 3 / 2 ^ 53` rounds to a double below 3. -/
theorem roundToDouble_lt_three (x : ℚ) (h0 : 0 ≤ x) (h3 : x ≤ 3 - 3 / 2 ^ 53) :
    roundToDouble x < 3 := by
  rcases eq_or_lt_of_le h0 with hz | hpos
  · rw [← hz]
    have : roundToDouble 0 = 0 := by simp [roundToDouble, roundHalfEven]
    rw [this]; norm_num
  · have h4 : x < 4 := by
      have : (3 : ℚ) - 3 / 2 ^ 53 < 4 := by norm_num
      linarith
    by_cases h2 : x < 2
    · have := roundToDouble_le_add x hpos h4
      have h5 : (1 : ℚ) / 2 ^ 52 < 1 := by norm_num
      linarith
    · have hu := ulpAt_of_two_le x (not_lt.1 h2) h4
      unfold roundToDouble
      rw [hu]
      have hk := roundHalfEven_le_add_half (x / (1 / 2 ^ 51))
      have hq : x / (1 / 2 ^ 51) = x * 2 ^ 51 := by field_simp
      rw [hq] at hk ⊢
      have hc : ((3 : ℚ) - 3 / 2 ^ 53) * 2 ^ 51 = 6755399441055744 - 3 / 4 := by norm_num
      have hy : x * 2 ^ 51 ≤ 6755399441055744 - 3 / 4 := by
        rw [← hc]
        exact mul_le_mul_of_nonneg_right h3 (by positivity)
      have hlt : (roundHalfEven (x * 2 ^ 51) : ℚ) < ((6755399441055744 : Int) : ℚ) := by
        push_cast
        generalize x * 2 ^ 51 = y at hk hy
        linarith
      have hle : roundHalfEven (x * 2 ^ 51) ≤ 6755399441055743 := by
        have : roundHalfEven (x * 2 ^ 51) < 6755399441055744 := by exact_mod_cast hlt
        omega
      have hle2 : (roundHalfEven (x * 2 ^ 51) : ℚ) ≤ 6755399441055743 := by
        exact_mod_cast hle
      have h7 : (roundHalfEven (x * 2 ^ 51) : ℚ) * (1 / 2 ^ 51)
          ≤ 6755399441055743 * (1 / 2 ^ 51) :=
        mul_le_mul_of_nonneg_right hle2 (by positivity)
      have h8 : (6755399441055743 : ℚ) * (1 / 2 ^ 51) < 3 := by norm_num
      linarith

/-- The largest double below 1 is `1 - 2 ^ -53`. -/
theorem Double.toRat_le_of_lt_one (d : Double) (hv : d.valid) (h1 : d.toRat < 1) :
    d.toRat ≤ 1 - 1 / 2 ^ 53 := by
  obtain ⟨hm, _, _⟩ := hv
  have h2 : (2 : ℚ) ≠ 0 := by norm_num
  unfold Double.toRat at *
  by_cases he : -53 ≤ d.exponent
  · obtain ⟨k, hk⟩ : ∃ k : Nat, (k : Int) = d.exponent + 53 :=
      ⟨(d.exponent + 53).toNat, Int.toNat_of_nonneg (by omega)⟩
    have hexp : (2 : ℚ) ^ d.exponent = (2 : ℚ) ^ k / 2 ^ 53 := by
      have : d.exponent = (k : Int) + (-53) := by omega
      rw [this, zpow_add₀ h2, zpow_natCast]
      norm_num
      ring
    rw [hexp] at h1 ⊢
    have hlt : ((d.mantissa * 2 ^ k : Nat) : ℚ) < ((2 ^ 53 : Nat) : ℚ) := by
      push_cast
      have h53 : (0 : ℚ) < 2 ^ 53 := by positivity
      have := (div_lt_one h53).1 (by rw [← mul_div_assoc] at h1; exact h1)
      exact this
    have hnat : d.mantissa * 2 ^ k < 2 ^ 53 := by exact_mod_cast hlt
    have hnat2 : d.mantissa * 2 ^ k ≤ 2 ^ 53 - 1 := by omega
    have hq : ((d.mantissa * 2 ^ k : Nat) : ℚ) ≤ ((2 ^ 53 - 1 : Nat) : ℚ) := by
      exact_mod_cast hnat2
    have hq2 : ((2 ^ 53 - 1 : Nat) : ℚ) = 2 ^ 53 - 1 := by norm_num
    rw [hq2] at hq
    push_cast at hq
    rw [← mul_div_assoc, div_le_iff₀ (by positivity)]
    have : ((1 : ℚ) - 1 / 2 ^ 53) * 2 ^ 53 = 2 ^ 53 - 1 := by norm_num
    rw [this]
    exact hq
  · have hle : (2 : ℚ) ^ d.exponent ≤ (2 : ℚ) ^ (-54 : Int) :=
      zpow_le_zpow_right₀ (by norm_num) (by omega)
    have hmq : (d.mantissa : ℚ) ≤ 2 ^ 53 := by exact_mod_cast hm.le
    have hpos : (0 : ℚ) ≤ (2 : ℚ) ^ d.exponent := by positivity
    have h3 : (d.mantissa : ℚ) * (2 : ℚ) ^ d.exponent ≤ 2 ^ 53 * (2 : ℚ) ^ (-54 : Int) :=
      mul_le_mul hmq hle hpos (by positivity)
    have h4 : (2 : ℚ) ^ 53 * (2 : ℚ) ^ (-54 : Int) ≤ 1 - 1 / 2 ^ 53 := by norm_num
    exact le_trans h3 h4

theorem roundToDouble_zero : roundToDouble 0 = 0 := by
  simp [roundToDouble, roundHalfEven]

theorem ulpAt_of_one_le (x : ℚ) (h1 : 1 ≤ x) (h2 : x < 2) : ulpAt x = 1 / 2 ^ 52 := by
  have h0 : 0 < x := by linarith
  have hlt : Int.log 2 x < 1 := by
    apply (Int.lt_zpow_iff_log_lt (by norm_num) h0).1
    norm_num
    exact h2
  have hge : 0 ≤ Int.log 2 x := by
    apply (Int.zpow_le_iff_le_log (by norm_num) h0).1
    norm_num
    exact h1
  have he : Int.log 2 x = 0 := by omega
  unfold ulpAt
  rw [he]
  norm_num

theorem ulpAt_of_half_le (x : ℚ) (h1 : 1 / 2 ≤ x) (h2 : x < 1) : ulpAt x = 1 / 2 ^ 53 := by
  have h0 : 0 < x := by linarith
  have hlt : Int.log 2 x < 0 := by
    apply (Int.lt_zpow_iff_log_lt (by norm_num) h0).1
    norm_num
    exact h2
  have hge : -1 ≤ Int.log 2 x := by
    apply (Int.zpow_le_iff_le_log (by norm_num) h0).1
    norm_num
    linarith
  have he : Int.log 2 x = -1 := by omega
  unfold ulpAt
  rw [he]
  norm_num

/-- The product of the draw just below 2/3 by 3 is `2 - 2 ^ -53`, half way between two
doubles; it rounds to 2. -/
theorem roundToDouble_drawBelowTwoThirds :
    roundToDouble (drawBelowTwoThirds.toRat * 3) = 2 := by
  have hx : drawBelowTwoThirds.toRat * 3 = 18014398509481983 / 9007199254740992 := by
    unfold drawBelowTwoThirds Double.toRat
    norm_num
  rw [hx]
  unfold roundToDouble
  rw [ulpAt_of_one_le _ (by norm_num) (by norm_num)]
  have hq : (18014398509481983 / 9007199254740992 : ℚ) / (1 / 2 ^ 52) = 18014398509481983 / 2 := by
    norm_num
  have hf : ⌊(18014398509481983 / 2 : ℚ)⌋ = 9007199254740991 := by
    rw [Int.floor_eq_iff]
    constructor <;> norm_num
  rw [hq]
  unfold roundHalfEven
  rw [hf]
  norm_num

/-- The product of the draw just below 1/3 by 3 is `1 - 2 ^ -54`, half way between two
doubles; it rounds to 1. -/
theorem roundToDouble_drawBelowOneThird :
    roundToDouble (drawBelowOneThird.toRat * 3) = 1 := by
  have hx : drawBelowOneThird.toRat * 3 = 18014398509481983 / 18014398509481984 := by
    unfold drawBelowOneThird Double.toRat
    norm_num
  rw [hx]
  unfold roundToDouble
  rw [ulpAt_of_half_le _ (by norm_num) (by norm_num)]
  have hq : (18014398509481983 / 18014398509481984 : ℚ) / (1 / 2 ^ 53)
      = 18014398509481983 / 2 := by
    norm_num
  have hf : ⌊(18014398509481983 / 2 : ℚ)⌋ = 9007199254740991 := by
    rw [Int.floor_eq_iff]
    constructor <;> norm_num
  rw [hq]
  unfold roundHalfEven
  rw [hf]
  norm_num

/-! ## The random endpoint of the spike script -/

theorem spike_index_eq (env : Env) (r : Double) :
    spike.index env r = ⌊roundToDouble (r.toRat * 3)⌋ := by
  unfold spike.index spike.endpoints
  norm_num

theorem Double.toRat_nonneg (d : Double) : 0 ≤ d.toRat := by
  unfold Double.toRat
  positivity

theorem spike_default_of_endpoint (env : Env) (r : Double) (res : Response) (url : String)
    (h : spike.endpoint env r = some url) :
    requestedUrls (spike.default env r res) = [url]
      ∧ steps (spike.default env r res) = [Event.httpGet url, Event.sleep (3 / 10)] := by
  unfold spike.default
  rw [h]
  constructor
  · simp only [requestedUrls_httpGet_cons,
      requestedUrls_checkOrAdd _ _ _ (neverRaises_status _ _ _)]
    simp [requestedUrls]
  · simp only [steps_httpGet_cons, steps_checkOrAdd _ _ _ (neverRaises_status _ _ _)]
    simp [steps]

/-- C4 (counterexample): the double `6004799503160661 * 2 ^ -53` is a draw in `[1/3, 2/3)`,
yet the script selects endpoint number 2, `/api/users`: the product by 3 rounds up to 2.
Likewise the double `6004799503160661 * 2 ^ -54` is below 1/3 and selects endpoint number 1. -/
theorem spike_draw_below_two_thirds_selects_last :
    drawBelowTwoThirds.valid
      ∧ 1 / 3 ≤ drawBelowTwoThirds.toRat ∧ drawBelowTwoThirds.toRat < 2 / 3
      ∧ spike.index emptyEnv drawBelowTwoThirds = 2
      ∧ spike.endpoint emptyEnv drawBelowTwoThirds
          = some "http://sample-app.dev.svc.cluster.local/api/users"
      ∧ drawBelowOneThird.valid
      ∧ 0 ≤ drawBelowOneThird.toRat ∧ drawBelowOneThird.toRat < 1 / 3
      ∧ spike.index emptyEnv drawBelowOneThird = 1 := by
  have h2 : spike.index emptyEnv drawBelowTwoThirds = 2 := by
    rw [spike_index_eq, roundToDouble_drawBelowTwoThirds]
    norm_num
  have h1 : spike.index emptyEnv drawBelowOneThird = 1 := by
    rw [spike_index_eq, roundToDouble_drawBelowOneThird]
    norm_num
  refine ⟨by decide, ?_, ?_, h2, ?_, by decide, ?_, ?_, h1⟩
  · unfold drawBelowTwoThirds Double.toRat; norm_num
  · unfold drawBelowTwoThirds Double.toRat; norm_num
  · unfold spike.endpoint
    rw [h2]
    decide
  · unfold drawBelowOneThird Double.toRat; norm_num
  · unfold drawBelowOneThird Double.toRat; norm_num

/-- C4 (amended): in the spike script, for every draw `r` that is a double with `0 ≤ r < 1`
(a `Double` is not negative), the index `floor(r * 3)`, the product being rounded to the
nearest double, is 0, 1 or 2 and the endpoint selected is accordingly `/`, `/health` or
`/api/users` under the base URL, never undefined; index `i` is taken exactly when the rounded
product lies in `[i, i + 1)`, which is the case for every draw with
`i/3 ≤ r < (i+1)/3 - 2 ^ -53` and for every draw `r ≥ 2/3`; the iteration requests exactly
the selected URL, once. -/
theorem spike_endpoint_is_uniform_over_three (env : Env) (r : Double) (res : Response)
    (hv : r.valid) (h1 : r.toRat < 1) :
    ((spike.index env r = 0 ∧ spike.endpoint env r = some (spike.BASE_URL env ++ "/"))
        ∨ (spike.index env r = 1 ∧ spike.endpoint env r = some (spike.BASE_URL env ++ "/health"))
        ∨ (spike.index env r = 2
            ∧ spike.endpoint env r = some (spike.BASE_URL env ++ "/api/users")))
      ∧ (spike.index env r = 0 ↔ roundToDouble (r.toRat * 3) < 1)
      ∧ (spike.index env r = 1
          ↔ 1 ≤ roundToDouble (r.toRat * 3) ∧ roundToDouble (r.toRat * 3) < 2)
      ∧ (spike.index env r = 2 ↔ 2 ≤ roundToDouble (r.toRat * 3))
      ∧ (r.toRat < 1 / 3 - 1 / 2 ^ 53 → spike.index env r = 0)
      ∧ (1 / 3 ≤ r.toRat → r.toRat < 2 / 3 - 1 / 2 ^ 53 → spike.index env r = 1)
      ∧ (2 / 3 ≤ r.toRat → spike.index env r = 2)
      ∧ (∃ url ∈ spike.endpoints env, spike.endpoint env r = some url
          ∧ requestedUrls (spike.default env r res) = [url]
          ∧ steps (spike.default env r res) = [Event.httpGet url, Event.sleep (3 / 10)]) := by
  have hr0 := Double.toRat_nonneg r
  have hx0 : 0 ≤ r.toRat * 3 := by linarith
  have hx3 : r.toRat * 3 ≤ 3 - 3 / 2 ^ 53 := by
    have := Double.toRat_le_of_lt_one r hv h1
    linarith
  have hx4 : r.toRat * 3 < 4 := by linarith
  have hge0 : 0 ≤ roundToDouble (r.toRat * 3) := roundToDouble_nonneg _ hx0
  have hlt3 : roundToDouble (r.toRat * 3) < 3 := roundToDouble_lt_three _ hx0 hx3
  have hidx := spike_index_eq env r
  have hi0 : spike.index env r = 0 ↔ roundToDouble (r.toRat * 3) < 1 := by
    rw [hidx, Int.floor_eq_iff]
    constructor
    · rintro ⟨_, b⟩
      simpa using b
    · intro b
      exact ⟨by simpa using hge0, by simpa using b⟩
  have hi1 : spike.index env r = 1
      ↔ 1 ≤ roundToDouble (r.toRat * 3) ∧ roundToDouble (r.toRat * 3) < 2 := by
    rw [hidx, Int.floor_eq_iff]
    norm_num
  have hi2 : spike.index env r = 2 ↔ 2 ≤ roundToDouble (r.toRat * 3) := by
    rw [hidx, Int.floor_eq_iff]
    constructor
    · rintro ⟨a, _⟩
      simpa using a
    · intro a
      refine ⟨by simpa using a, ?_⟩
      push_cast
      linarith
  have hrange : spike.index env r = 0 ∨ spike.index env r = 1 ∨ spike.index env r = 2 := by
    rw [hidx]
    have hlo : (0 : Int) ≤ ⌊roundToDouble (r.toRat * 3)⌋ := Int.floor_nonneg.2 hge0
    have hhi : ⌊roundToDouble (r.toRat * 3)⌋ < (3 : Int) :=
      Int.floor_lt.2 (by push_cast; exact hlt3)
    omega
  have hsel : (spike.index env r = 0 ∧ spike.endpoint env r = some (spike.BASE_URL env ++ "/"))
      ∨ (spike.index env r = 1 ∧ spike.endpoint env r = some (spike.BASE_URL env ++ "/health"))
      ∨ (spike.index env r = 2
          ∧ spike.endpoint env r = some (spike.BASE_URL env ++ "/api/users")) := by
    rcases hrange with h | h | h
    · exact Or.inl ⟨h, by unfold spike.endpoint; rw [h]; rfl⟩
    · exact Or.inr (Or.inl ⟨h, by unfold spike.endpoint; rw [h]; rfl⟩)
    · exact Or.inr (Or.inr ⟨h, by unfold spike.endpoint; rw [h]; rfl⟩)
  have hup : roundToDouble (r.toRat * 3) ≤ r.toRat * 3 + 1 / 2 ^ 52 := by
    rcases eq_or_lt_of_le hx0 with hz | hpos
    · rw [← hz, roundToDouble_zero]; norm_num
    · exact roundToDouble_le_add _ hpos hx4
  refine ⟨hsel, hi0, hi1, hi2, ?_, ?_, ?_, ?_⟩
  · intro hlt
    apply hi0.2
    have : (1 : ℚ) / 2 ^ 52 < 3 / 2 ^ 53 := by norm_num
    linarith
  · intro hlo hlt
    apply hi1.2
    constructor
    · have hpos : 0 < r.toRat * 3 := by linarith
      have := roundToDouble_ge_int (r.toRat * 3) 1 hpos hx4 (by push_cast; linarith)
      simpa using this
    · have : (1 : ℚ) / 2 ^ 52 < 3 / 2 ^ 53 := by norm_num
      linarith
  · intro hlo
    apply hi2.2
    have hpos : 0 < r.toRat * 3 := by linarith
    have := roundToDouble_ge_int (r.toRat * 3) 2 hpos hx4 (by push_cast; linarith)
    simpa using this
  · rcases hsel with ⟨_, h⟩ | ⟨_, h⟩ | ⟨_, h⟩
    · exact ⟨_, by simp [spike.endpoints], h, spike_default_of_endpoint env r res _ h⟩
    · exact ⟨_, by simp [spike.endpoints], h, spike_default_of_endpoint env r res _ h⟩
    · exact ⟨_, by simp [spike.endpoints], h, spike_default_of_endpoint env r res _ h⟩

/-- C4 (witness of the amended claim): the draw `1/2` selects endpoint number 1. -/
theorem spike_endpoint_is_uniform_over_three_witness :
    drawHalf.valid ∧ drawHalf.toRat < 1 ∧ spike.index emptyEnv drawHalf = 1 :=
  have hlt : drawHalf.toRat < 1 := by
    unfold drawHalf Double.toRat; norm_num
  ⟨by decide, hlt,
    (spike_endpoint_is_uniform_over_three emptyEnv drawHalf okResponse (by decide) hlt).2.2.2.2.2.1
      (by unfold drawHalf Double.toRat; norm_num)
      (by unfold drawHalf Double.toRat; norm_num)⟩
/-! ## Stage scheduler -/

theorem roundNearest_natCast (n : Nat) : roundNearest (n : ℚ) = (n : Int) := by
  unfold roundNearest
  have h : ⌊(n : ℚ) + 1 / 2⌋ = (n : Int) := by
    rw [Int.floor_eq_iff]
    constructor
    · push_cast; linarith
    · push_cast; linarith
  rw [h]
  exact max_eq_right (Int.natCast_nonneg n)

/-- Rounding keeps a value between two integer bounds between them. -/
theorem roundNearest_mem_Icc (x : ℚ) (lo hi : Nat) (hlo : (lo : ℚ) ≤ x) (hhi : x ≤ (hi : ℚ)) :
    (lo : Int) ≤ roundNearest x ∧ roundNearest x ≤ (hi : Int) := by
  unfold roundNearest
  have h1 : (lo : Int) ≤ ⌊x + 1 / 2⌋ := by
    rw [Int.le_floor]
    push_cast
    linarith
  have h2 : ⌊x + 1 / 2⌋ ≤ (hi : Int) := by
    have h3 : ⌊x + 1 / 2⌋ < (hi : Int) + 1 := by
      rw [Int.floor_lt]
      push_cast
      linarith
    omega
  constructor
  · exact le_trans h1 (le_max_right _ _)
  · exact max_le (Int.natCast_nonneg hi) h2

theorem targetConcurrency_cons_of_lt (s : TimedStage) (rest : List TimedStage) (c0 : Nat)
    (t : ℚ) (hs : s.seconds ≠ 0) (ht : t < (s.seconds : ℚ)) :
    targetConcurrency (s :: rest) c0 t
      = roundNearest ((c0 : ℚ) + ((s.target : ℚ) - (c0 : ℚ)) * (t / (s.seconds : ℚ))) := by
  rw [targetConcurrency, if_neg hs, if_pos ht]

theorem targetConcurrency_cons_of_le (s : TimedStage) (rest : List TimedStage) (c0 : Nat)
    (t : ℚ) (hs : s.seconds ≠ 0) (ht : (s.seconds : ℚ) ≤ t) :
    targetConcurrency (s :: rest) c0 t
      = targetConcurrency rest s.target (t - (s.seconds : ℚ)) := by
  rw [targetConcurrency, if_neg hs, if_neg (not_lt.2 ht)]

/-- At the start of a stage of positive duration the target is the value the stage starts
from. -/
theorem targetConcurrency_cons_zero (s : TimedStage) (rest : List TimedStage) (c0 : Nat)
    (hs : s.seconds ≠ 0) : targetConcurrency (s :: rest) c0 0 = (c0 : Int) := by
  have hpos : (0 : ℚ) < (s.seconds : ℚ) := by
    exact_mod_cast Nat.pos_of_ne_zero hs
  rw [targetConcurrency_cons_of_lt s rest c0 0 hs hpos]
  have h : (c0 : ℚ) + ((s.target : ℚ) - (c0 : ℚ)) * (0 / (s.seconds : ℚ)) = (c0 : ℚ) := by
    simp
  rw [h, roundNearest_natCast]

/-- Within a stage that starts from its own target (a hold), the target is constant. -/
theorem targetConcurrency_cons_hold (s : TimedStage) (rest : List TimedStage)
    (t : ℚ) (hs : s.seconds ≠ 0) (ht : t < (s.seconds : ℚ)) :
    targetConcurrency (s :: rest) s.target t = (s.target : Int) := by
  rw [targetConcurrency_cons_of_lt s rest s.target t hs ht]
  have h : (s.target : ℚ) + ((s.target : ℚ) - (s.target : ℚ)) * (t / (s.seconds : ℚ))
      = (s.target : ℚ) := by
    simp
  rw [h, roundNearest_natCast]

/-- The scheduler never leaves the range spanned by the starting value and the stage
targets. -/
theorem targetConcurrency_le (ts : List TimedStage) (m : Nat) :
    ∀ (c0 : Nat) (t : ℚ), 0 ≤ t → c0 ≤ m → (∀ s ∈ ts, s.target ≤ m) →
      0 ≤ targetConcurrency ts c0 t ∧ targetConcurrency ts c0 t ≤ (m : Int) := by
  induction ts with
  | nil =>
    intro c0 t _ _ _
    simp [targetConcurrency]
  | cons s rest ih =>
    intro c0 t ht hc hall
    have hs_le : s.target ≤ m := hall s (List.mem_cons_self _ _)
    have hrest : ∀ x ∈ rest, x.target ≤ m := fun x hx => hall x (List.mem_cons_of_mem _ hx)
    by_cases hz : s.seconds = 0
    · rw [targetConcurrency, if_pos hz]
      exact ih c0 t ht hc hrest
    · by_cases hlt : t < (s.seconds : ℚ)
      · rw [targetConcurrency_cons_of_lt s rest c0 t hz hlt]
        have hpos : (0 : ℚ) < (s.seconds : ℚ) := by
          exact_mod_cast Nat.pos_of_ne_zero hz
        have hf0 : 0 ≤ t / (s.seconds : ℚ) := div_nonneg ht hpos.le
        have hf1 : t / (s.seconds : ℚ) ≤ 1 := by
          rw [div_le_one hpos]; exact hlt.le
        have hcm : (c0 : ℚ) ≤ (m : ℚ) := by exact_mod_cast hc
        have hsm : (s.target : ℚ) ≤ (m : ℚ) := by exact_mod_cast hs_le
        have hc0 : (0 : ℚ) ≤ (c0 : ℚ) := Nat.cast_nonneg c0
        have hs0 : (0 : ℚ) ≤ (s.target : ℚ) := Nat.cast_nonneg s.target
        have hlo : ((0 : Nat) : ℚ)
            ≤ (c0 : ℚ) + ((s.target : ℚ) - (c0 : ℚ)) * (t / (s.seconds : ℚ)) := by
          have : (c0 : ℚ) + ((s.target : ℚ) - (c0 : ℚ)) * (t / (s.seconds : ℚ))
              = (c0 : ℚ) * (1 - t / (s.seconds : ℚ)) + (s.target : ℚ) * (t / (s.seconds : ℚ)) := by
            ring
          rw [this]
          push_cast
          have h1 : 0 ≤ (c0 : ℚ) * (1 - t / (s.seconds : ℚ)) :=
            mul_nonneg hc0 (by linarith)
          have h2 : 0 ≤ (s.target : ℚ) * (t / (s.seconds : ℚ)) := mul_nonneg hs0 hf0
          linarith
        have hhi : (c0 : ℚ) + ((s.target : ℚ) - (c0 : ℚ)) * (t / (s.seconds : ℚ))
            ≤ (m : ℚ) := by
          have : (c0 : ℚ) + ((s.target : ℚ) - (c0 : ℚ)) * (t / (s.seconds : ℚ))
              = (c0 : ℚ) * (1 - t / (s.seconds : ℚ)) + (s.target : ℚ) * (t / (s.seconds : ℚ)) := by
            ring
          rw [this]
          have h1 : (c0 : ℚ) * (1 - t / (s.seconds : ℚ))
              ≤ (m : ℚ) * (1 - t / (s.seconds : ℚ)) :=
            mul_le_mul_of_nonneg_right hcm (by linarith)
          have h2 : (s.target : ℚ) * (t / (s.seconds : ℚ))
              ≤ (m : ℚ) * (t / (s.seconds : ℚ)) :=
            mul_le_mul_of_nonneg_right hsm hf0
          nlinarith
        have h := roundNearest_mem_Icc _ 0 m hlo hhi
        exact ⟨by simpa using h.1, h.2⟩
      · have hle : (s.seconds : ℚ) ≤ t := not_lt.1 hlt
        rw [targetConcurrency_cons_of_le s rest c0 t hz hle]
        exact ih s.target (t - (s.seconds : ℚ)) (by linarith) hs_le hrest

theorem stageEnds_shift (ts : List TimedStage) :
    ∀ k : Nat, stageEnds ts k = (stageEnds ts 0).map (fun e => e + k) := by
  induction ts with
  | nil => intro k; rfl
  | cons s rest ih =>
    intro k
    simp only [stageEnds, List.map_cons, Nat.zero_add]
    rw [ih (k + s.seconds), ih s.seconds, List.map_map]
    congr 1
    · exact Nat.add_comm _ _
    · apply List.map_congr_left
      intro e _
      simp only [Function.comp]
      omega

/-- At the exact end of every stage the scheduler returns that stage's target, for a stage
list without zero-duration stages whose last target is 0. -/
theorem targetConcurrency_at_stageEnds (ts : List TimedStage) :
    ∀ c0 : Nat, (∀ s ∈ ts, s.seconds ≠ 0) → (∀ s, ts.getLast? = some s → s.target = 0) →
      (stageEnds ts 0).map (fun (e : Nat) => targetConcurrency ts c0 (e : ℚ))
        = ts.map (fun s => (s.target : Int)) := by
  induction ts with
  | nil => intro _ _ _; rfl
  | cons s rest ih =>
    intro c0 hpos hlast
    have hs : s.seconds ≠ 0 := hpos s (List.mem_cons_self _ _)
    have hrest : ∀ x ∈ rest, x.seconds ≠ 0 := fun x hx => hpos x (List.mem_cons_of_mem _ hx)
    simp only [stageEnds, List.map_cons, Nat.zero_add]
    congr 1
    · rw [targetConcurrency_cons_of_le s rest c0 _ hs le_rfl, sub_self]
      cases rest with
      | nil =>
        have h0 : s.target = 0 := hlast s rfl
        simp [targetConcurrency, h0]
      | cons s2 rest2 =>
        exact targetConcurrency_cons_zero s2 rest2 s.target (hrest s2 (List.mem_cons_self _ _))
    · rw [stageEnds_shift rest s.seconds, List.map_map]
      have hlast2 : ∀ x, rest.getLast? = some x → x.target = 0 := by
        intro x hx
        apply hlast x
        cases rest with
        | nil => simp at hx
        | cons s2 rest2 => rw [List.getLast?_cons_cons]; exact hx
      rw [← ih s.target hrest hlast2]
      apply List.map_congr_left
      intro e _
      simp only [Function.comp]
      have hle : (s.seconds : ℚ) ≤ ((e + s.seconds : Nat) : ℚ) := by
        push_cast; linarith [(Nat.cast_nonneg e : (0 : ℚ) ≤ (e : ℚ))]
      rw [targetConcurrency_cons_of_le s rest c0 _ hs hle]
      congr 1
      push_cast
      ring

theorem targetConcurrency_skip (d c : Nat) (rest : List TimedStage) (c0 : Nat) (t : ℚ)
    (hd : d ≠ 0) (ht : (d : ℚ) ≤ t) :
    targetConcurrency (⟨d, c⟩ :: rest) c0 t = targetConcurrency rest c (t - (d : ℚ)) :=
  targetConcurrency_cons_of_le ⟨d, c⟩ rest c0 t hd ht

/-- A hold stage followed by another stage: the target is the held value up to and including
the end of the hold. -/
theorem targetConcurrency_hold (d c d2 c2 : Nat) (rest : List TimedStage) (t : ℚ)
    (hd : d ≠ 0) (hd2 : d2 ≠ 0) (ht : t ≤ (d : ℚ)) :
    targetConcurrency (⟨d, c⟩ :: ⟨d2, c2⟩ :: rest) c t = (c : Int) := by
  rcases lt_or_eq_of_le ht with hlt | heq
  · exact targetConcurrency_cons_hold ⟨d, c⟩ _ t hd hlt
  · rw [targetConcurrency_skip d c _ c t hd (le_of_eq heq.symm), heq, sub_self]
    exact targetConcurrency_cons_zero ⟨d2, c2⟩ rest c hd2

theorem parseStages_baseline :
    parseStages baseline.options_stages = some [⟨60, 10⟩, ⟨180, 10⟩, ⟨60, 0⟩] := by
  decide

theorem parseStages_soak :
    parseStages soak.options_stages = some [⟨120, 30⟩, ⟨1800, 30⟩, ⟨120, 0⟩] := by
  decide

theorem parseStages_spike :
    parseStages spike.options_stages
      = some [⟨30, 10⟩, ⟨60, 200⟩, ⟨180, 200⟩, ⟨30, 10⟩, ⟨60, 10⟩, ⟨30, 0⟩] := by
  decide

theorem parseStages_stress :
    parseStages stress.options_stages
      = some [⟨120, 50⟩, ⟨300, 50⟩, ⟨120, 100⟩, ⟨300, 100⟩, ⟨120, 150⟩, ⟨300, 150⟩, ⟨120, 0⟩] := by
  decide

/-- For a stage list that parses to stages of positive duration ending on target 0, the
targets at the stage ends are the configured targets. -/
theorem targetsAtStageEnds_eq (stages : List Stage) (ts : List TimedStage) (c0 : Nat)
    (hp : parseStages stages = some ts) (hpos : ∀ s ∈ ts, s.seconds ≠ 0)
    (hlast : ∀ s, ts.getLast? = some s → s.target = 0) :
    targetsAtStageEnds stages c0 = some (ts.map (fun s => (s.target : Int))) := by
  unfold targetsAtStageEnds
  rw [hp, Option.map_some', targetConcurrency_at_stageEnds ts c0 hpos hlast]

/-- C5: for the stage list of each of the four scripts and any starting value, the spec's
`targetConcurrency` at the exact end time of every stage is that stage's configured target; in
particular it is 0 at the end of the last stage: 300 s (baseline), 2040 s (soak), 390 s
(spike), 1380 s (stress). -/
theorem target_at_stage_end_is_stage_target (c0 : Nat) :
    (targetsAtStageEnds baseline.options_stages c0
        = some (baseline.options_stages.map (fun s => (s.target : Int)))
      ∧ scheduleTarget baseline.options_stages c0 300 = some 0)
    ∧ (targetsAtStageEnds soak.options_stages c0
        = some (soak.options_stages.map (fun s => (s.target : Int)))
      ∧ scheduleTarget soak.options_stages c0 2040 = some 0)
    ∧ (targetsAtStageEnds spike.options_stages c0
        = some (spike.options_stages.map (fun s => (s.target : Int)))
      ∧ scheduleTarget spike.options_stages c0 390 = some 0)
    ∧ (targetsAtStageEnds stress.options_stages c0
        = some (stress.options_stages.map (fun s => (s.target : Int)))
      ∧ scheduleTarget stress.options_stages c0 1380 = some 0) := by
  refine ⟨⟨?_, ?_⟩, ⟨?_, ?_⟩, ⟨?_, ?_⟩, ⟨?_, ?_⟩⟩
  · rw [targetsAtStageEnds_eq _ _ c0 parseStages_baseline (by decide) (by decide)]
    rfl
  · unfold scheduleTarget
    rw [parseStages_baseline]
    norm_num [targetConcurrency]
  · rw [targetsAtStageEnds_eq _ _ c0 parseStages_soak (by decide) (by decide)]
    rfl
  · unfold scheduleTarget
    rw [parseStages_soak]
    norm_num [targetConcurrency]
  · rw [targetsAtStageEnds_eq _ _ c0 parseStages_spike (by decide) (by decide)]
    rfl
  · unfold scheduleTarget
    rw [parseStages_spike]
    norm_num [targetConcurrency]
  · rw [targetsAtStageEnds_eq _ _ c0 parseStages_stress (by decide) (by decide)]
    rfl
  · unfold scheduleTarget
    rw [parseStages_stress]
    norm_num [targetConcurrency]

/-- C6: over each script's stage list and from any starting value, the spec's
`targetConcurrency` is constant on the window of every hold stage, ends included: 10 on
[60, 240] (baseline), 30 on [120, 1920] (soak), 200 on [90, 270] and 10 on [300, 360] (spike),
50, 100, 150 on [120, 420], [540, 840], [960, 1260] (stress). -/
theorem target_is_constant_on_hold_stages (c0 : Nat) (t : ℚ) :
    (60 ≤ t ∧ t ≤ 240 → scheduleTarget baseline.options_stages c0 t = some 10)
      ∧ (120 ≤ t ∧ t ≤ 1920 → scheduleTarget soak.options_stages c0 t = some 30)
      ∧ (90 ≤ t ∧ t ≤ 270 → scheduleTarget spike.options_stages c0 t = some 200)
      ∧ (300 ≤ t ∧ t ≤ 360 → scheduleTarget spike.options_stages c0 t = some 10)
      ∧ (120 ≤ t ∧ t ≤ 420 → scheduleTarget stress.options_stages c0 t = some 50)
      ∧ (540 ≤ t ∧ t ≤ 840 → scheduleTarget stress.options_stages c0 t = some 100)
      ∧ (960 ≤ t ∧ t ≤ 1260 → scheduleTarget stress.options_stages c0 t = some 150) := by
  refine ⟨?_, ?_, ?_, ?_, ?_, ?_, ?_⟩
  · rintro ⟨hlo, hhi⟩
    unfold scheduleTarget
    rw [parseStages_baseline, Option.map_some',
      targetConcurrency_skip 60 10 _ c0 t (by decide) (by push_cast; linarith),
      targetConcurrency_hold 180 10 60 0 _ _ (by decide) (by decide) (by push_cast; linarith)]
    rfl
  · rintro ⟨hlo, hhi⟩
    unfold scheduleTarget
    rw [parseStages_soak, Option.map_some',
      targetConcurrency_skip 120 30 _ c0 t (by decide) (by push_cast; linarith),
      targetConcurrency_hold 1800 30 120 0 _ _ (by decide) (by decide) (by push_cast; linarith)]
    rfl
  · rintro ⟨hlo, hhi⟩
    unfold scheduleTarget
    rw [parseStages_spike, Option.map_some',
      targetConcurrency_skip 30 10 _ c0 t (by decide) (by push_cast; linarith),
      targetConcurrency_skip 60 200 _ 10 _ (by decide) (by push_cast; linarith),
      targetConcurrency_hold 180 200 30 10 _ _ (by decide) (by decide) (by push_cast; linarith)]
    rfl
  · rintro ⟨hlo, hhi⟩
    unfold scheduleTarget
    rw [parseStages_spike, Option.map_some',
      targetConcurrency_skip 30 10 _ c0 t (by decide) (by push_cast; linarith),
      targetConcurrency_skip 60 200 _ 10 _ (by decide) (by push_cast; linarith),
      targetConcurrency_skip 180 200 _ 200 _ (by decide) (by push_cast; linarith),
      targetConcurrency_skip 30 10 _ 200 _ (by decide) (by push_cast; linarith),
      targetConcurrency_hold 60 10 30 0 _ _ (by decide) (by decide) (by push_cast; linarith)]
    rfl
  · rintro ⟨hlo, hhi⟩
    unfold scheduleTarget
    rw [parseStages_stress, Option.map_some',
      targetConcurrency_skip 120 50 _ c0 t (by decide) (by push_cast; linarith),
      targetConcurrency_hold 300 50 120 100 _ _ (by decide) (by decide) (by push_cast; linarith)]
    rfl
  · rintro ⟨hlo, hhi⟩
    unfold scheduleTarget
    rw [parseStages_stress, Option.map_some',
      targetConcurrency_skip 120 50 _ c0 t (by decide) (by push_cast; linarith),
      targetConcurrency_skip 300 50 _ 50 _ (by decide) (by push_cast; linarith),
      targetConcurrency_skip 120 100 _ 50 _ (by decide) (by push_cast; linarith),
      targetConcurrency_hold 300 100 120 150 _ _ (by decide) (by decide) (by push_cast; linarith)]
    rfl
  · rintro ⟨hlo, hhi⟩
    unfold scheduleTarget
    rw [parseStages_stress, Option.map_some',
      targetConcurrency_skip 120 50 _ c0 t (by decide) (by push_cast; linarith),
      targetConcurrency_skip 300 50 _ 50 _ (by decide) (by push_cast; linarith),
      targetConcurrency_skip 120 100 _ 50 _ (by decide) (by push_cast; linarith),
      targetConcurrency_skip 300 100 _ 100 _ (by decide) (by push_cast; linarith),
      targetConcurrency_skip 120 150 _ 100 _ (by decide) (by push_cast; linarith),
      targetConcurrency_hold 300 150 120 0 _ _ (by decide) (by decide) (by push_cast; linarith)]
    rfl

/-- C6 (witness): one time inside every hold window. -/
theorem target_is_constant_on_hold_stages_witness :
    scheduleTarget baseline.options_stages 0 150 = some 10
      ∧ scheduleTarget soak.options_stages 0 1920 = some 30
      ∧ scheduleTarget spike.options_stages 0 90 = some 200
      ∧ scheduleTarget spike.options_stages 0 (661 / 2) = some 10
      ∧ scheduleTarget stress.options_stages 7 420 = some 50
      ∧ scheduleTarget stress.options_stages 0 700 = some 100
      ∧ scheduleTarget stress.options_stages 0 1260 = some 150 :=
  ⟨(target_is_constant_on_hold_stages 0 150).1 ⟨by norm_num, by norm_num⟩,
    (target_is_constant_on_hold_stages 0 1920).2.1 ⟨by norm_num, by norm_num⟩,
    (target_is_constant_on_hold_stages 0 90).2.2.1 ⟨by norm_num, by norm_num⟩,
    (target_is_constant_on_hold_stages 0 (661 / 2)).2.2.2.1 ⟨by norm_num, by norm_num⟩,
    (target_is_constant_on_hold_stages 7 420).2.2.2.2.1 ⟨by norm_num, by norm_num⟩,
    (target_is_constant_on_hold_stages 0 700).2.2.2.2.2.1 ⟨by norm_num, by norm_num⟩,
    (target_is_constant_on_hold_stages 0 1260).2.2.2.2.2.2 ⟨by norm_num, by norm_num⟩⟩

theorem scheduleTarget_bounded (stages : List Stage) (ts : List TimedStage) (m : Nat) (t : ℚ)
    (hp : parseStages stages = some ts) (hm : ∀ s ∈ ts, s.target ≤ m) (ht : 0 ≤ t) :
    ∃ v, scheduleTarget stages 0 t = some v ∧ 0 ≤ v ∧ v ≤ (m : Int) := by
  unfold scheduleTarget
  rw [hp, Option.map_some']
  exact ⟨_, rfl, targetConcurrency_le ts m 0 t ht (Nat.zero_le m) hm⟩

/-- C10: for each script and every elapsed time `t ≥ 0`, the target interpolated over its
stage list, starting from 0, is defined, is not negative and does not exceed the largest
configured stage target: 10 (baseline), 30 (soak), 200 (spike), 150 (stress). -/
theorem target_within_largest_stage_target (t : ℚ) (ht : 0 ≤ t) :
    (maxTarget baseline.options_stages = 10
        ∧ ∃ v, scheduleTarget baseline.options_stages 0 t = some v ∧ 0 ≤ v ∧ v ≤ 10)
      ∧ (maxTarget soak.options_stages = 30
        ∧ ∃ v, scheduleTarget soak.options_stages 0 t = some v ∧ 0 ≤ v ∧ v ≤ 30)
      ∧ (maxTarget spike.options_stages = 200
        ∧ ∃ v, scheduleTarget spike.options_stages 0 t = some v ∧ 0 ≤ v ∧ v ≤ 200)
      ∧ (maxTarget stress.options_stages = 150
        ∧ ∃ v, scheduleTarget stress.options_stages 0 t = some v ∧ 0 ≤ v ∧ v ≤ 150) := by
  refine ⟨⟨by decide, ?_⟩, ⟨by decide, ?_⟩, ⟨by decide, ?_⟩, ⟨by decide, ?_⟩⟩
  · exact scheduleTarget_bounded _ _ 10 t parseStages_baseline (by decide) ht
  · exact scheduleTarget_bounded _ _ 30 t parseStages_soak (by decide) ht
  · exact scheduleTarget_bounded _ _ 200 t parseStages_spike (by decide) ht
  · exact scheduleTarget_bounded _ _ 150 t parseStages_stress (by decide) ht

/-- C10 (witness): 45 s into the run of the spike script. -/
theorem target_within_largest_stage_target_witness :
    (0 : ℚ) ≤ 45
      ∧ ∃ v, scheduleTarget spike.options_stages 0 45 = some v ∧ 0 ≤ v ∧ v ≤ 200 :=
  ⟨by norm_num, (target_within_largest_stage_target 45 (by norm_num)).2.2.1.2⟩

/-! ## The latency threshold -/

/-- Sorting a sample made of one value 600 and values not above 130 puts the 600 last. -/
theorem insertionSort_with_outlier (l ys : List ℚ) (hperm : l.Perm (600 :: ys))
    (hys : ∀ y ∈ ys, 100 ≤ y ∧ y ≤ 130) :
    l.insertionSort (fun a b => a ≤ b) = ys.insertionSort (fun a b => a ≤ b) ++ [600] := by
  apply List.eq_of_perm_of_sorted (r := fun a b : ℚ => a ≤ b)
  · exact ((List.perm_insertionSort _ l).trans hperm).trans
      ((List.perm_append_singleton 600 ys).symm.trans
        (List.Perm.append_right _ (List.perm_insertionSort _ ys).symm))
  · exact List.sorted_insertionSort _ l
  · unfold List.Sorted
    rw [List.pairwise_append]
    refine ⟨List.sorted_insertionSort _ ys, List.pairwise_singleton _ _, ?_⟩
    intro a ha b hb
    have ha2 : a ∈ ys := (List.perm_insertionSort _ ys).mem_iff.1 ha
    rw [List.mem_singleton] at hb
    rw [hb]
    linarith [(hys a ha2).2]

/-- C7: for every sample of 20 request durations made of 19 values between 100 and 130 and
one value 600, in any order, the 95th percentile is one of the 19 small values, hence below
500, and the baseline script's threshold `p(95)<500` on `http_req_duration` passes; the value
interpolated between the two top samples is below 500 as well. -/
theorem p95_threshold_passes_with_one_outlier (l ys : List ℚ) (hperm : l.Perm (600 :: ys))
    (hlen : ys.length = 19) (hys : ∀ y ∈ ys, 100 ≤ y ∧ y ≤ 130) :
    (∃ v, percentile 95 l = some v ∧ v ∈ ys ∧ v < 500)
      ∧ (thresholdsOn baseline.options_thresholds "http_req_duration").all
          (fun th => th.passed l) = true
      ∧ (∃ w, percentileInterpolated 95 l = some w ∧ w < 500) := by
  have hsort := insertionSort_with_outlier l ys hperm hys
  have hl : l.length = 20 := by
    rw [hperm.length_eq, List.length_cons, hlen]
  have hsl : (ys.insertionSort (fun a b => a ≤ b)).length = 19 := by
    rw [List.length_insertionSort, hlen]
  have h18 : 18 < (ys.insertionSort (fun a b => a ≤ b)).length := by
    rw [hsl]; decide
  have hmem : (ys.insertionSort (fun a b => a ≤ b))[18] ∈ ys :=
    (List.perm_insertionSort _ ys).mem_iff.1 (List.getElem_mem _)
  have hrank : ⌈((95 : Nat) : ℚ) / 100 * ((20 : Nat) : ℚ)⌉₊ - 1 = 18 := by
    have h : ((95 : Nat) : ℚ) / 100 * ((20 : Nat) : ℚ) = ((19 : Nat) : ℚ) := by norm_num
    rw [h, Nat.ceil_natCast]
  have hp : percentile 95 l = some (ys.insertionSort (fun a b => a ≤ b))[18] := by
    unfold percentile
    rw [hsort, hl, hrank, List.getElem?_append_left h18, List.getElem?_eq_getElem h18]
  have hv : (ys.insertionSort (fun a b => a ≤ b))[18] < 500 := by
    linarith [(hys _ hmem).2]
  refine ⟨⟨_, hp, hmem, hv⟩, ?_, ?_⟩
  · have hth : thresholdsOn baseline.options_thresholds "http_req_duration"
        = [⟨"http_req_duration", Aggregate.p 95, 500⟩] := by
      rfl
    rw [hth]
    simp only [List.all_cons, List.all_nil, Threshold.passed, hp, Bool.and_true]
    exact decide_eq_true hv
  · have hi : ((95 : Nat) : ℚ) / 100 * (((20 : Nat) : ℚ) - 1) = 361 / 20 := by norm_num
    have hfloor : ⌊(361 / 20 : ℚ)⌋₊ = 18 := by
      rw [Nat.floor_eq_iff (by norm_num)]
      constructor <;> norm_num
    have hceil : ⌈(361 / 20 : ℚ)⌉₊ = 19 := by
      rw [Nat.ceil_eq_iff (by decide)]
      constructor <;> norm_num
    have h19 : (ys.insertionSort (fun a b => a ≤ b) ++ [600])[19]? = some 600 := by
      rw [List.getElem?_append_right (by rw [hsl]), hsl]
      rfl
    refine ⟨(ys.insertionSort (fun a b => a ≤ b))[18]
      + (600 - (ys.insertionSort (fun a b => a ≤ b))[18]) * (361 / 20 - ((18 : Nat) : ℚ)), ?_, ?_⟩
    · unfold percentileInterpolated
      simp only [hsort, hl, hi, hfloor, hceil, h19, List.getElem?_append_left h18,
        List.getElem?_eq_getElem h18]
      norm_num
    · have h1 := (hys _ hmem).1
      have h2 := (hys _ hmem).2
      norm_num
      linarith

/-- C7 (witness): the sample `[100, 120, 110, 600, 130, 110, …]` of the specification. -/
theorem p95_threshold_passes_with_one_outlier_witness :
    (thresholdsOn baseline.options_thresholds "http_req_duration").all
        (fun th => th.passed
          ([100, 120, 110] ++ 600 :: [130, 110, 110, 110, 110, 110, 110, 110, 110, 110,
            110, 110, 110, 110, 110, 110])) = true :=
  (p95_threshold_passes_with_one_outlier
    ([100, 120, 110] ++ 600 :: [130, 110, 110, 110, 110, 110, 110, 110, 110, 110,
      110, 110, 110, 110, 110, 110])
    ([100, 120, 110] ++ [130, 110, 110, 110, 110, 110, 110, 110, 110, 110,
      110, 110, 110, 110, 110, 110])
    List.perm_middle rfl (by norm_num)).2.1

end ArgoStack
